import Mathlib

/-!
# UvTcpServer: acceptor, worker hand-off and connection streams

A shallow embedding of `code/components/net-tcp-server/src/UvTcpServer.cpp`.

* The acceptor (`UvTcpServer`) is a record of its members plus a log of the
  effects it performs on handles it does not own the code of (accept, close,
  handle transfer).
* A connection stream (`UvTcpServerStream`) is a record of its members plus a
  log of the effects on its socket, wake handle and user callbacks.  The
  closures stored in `m_pendingRequests` are first-order data (`Task`), and
  the bodies of user callbacks are sequences of stream operations (`Op`).
* Functions that call back into each other (`CloseClient`,
  `HandlePendingWrites`, the queued closures) are defined by recursion on a
  fuel argument that bounds the call depth; `none` means the fuel ran out.
  `fuelBound` is shown to be always sufficient.
-/

namespace UvTcp

/-- One octet, `uint8_t` / `char` in the source. -/
abbrev Byte := Fin 256

/-- Identity of a rendezvous pipe handle (`std::shared_ptr<uvw::PipeHandle>`). -/
abbrev PipeId := Nat

/-- Identity of an accepted client socket (`std::shared_ptr<uvw::TCPHandle>`). -/
abbrev ConnId := Nat

/-! ## Acceptor -/

/-- Effects of the acceptor on handles. -/
inductive AcceptorEvent where
  /-- Source: `m_server->accept(*clientHandle)`. -/
  | accepted (c : ConnId)
  /-- Source: `clientHandle->close()`. -/
  | closed (c : ConnId)
  /-- Source: `m_dispatchPipes[index]->write(*clientHandle, dummyMessage, 4)`. -/
  | transferred (pipe : PipeId) (c : ConnId) (marker : List Byte)
  deriving DecidableEq, Repr

/-- The members of `UvTcpServer` that `OnListenPipe` and `OnConnection` touch. -/
structure UvTcpServer where
  /-- Member `std::array<uint8_t, 16> m_helloMessage`. -/
  m_helloMessage : List Byte
  /-- Member `std::set<std::shared_ptr<uvw::PipeHandle>> m_createdPipes`. -/
  m_createdPipes : List PipeId
  /-- Member `std::vector<std::shared_ptr<uvw::PipeHandle>> m_dispatchPipes`. -/
  m_dispatchPipes : List PipeId
  m_dispatchIndex : Nat
  m_tryDetachFromIOCP : Bool
  /-- Log of effects, oldest first. -/
  events : List AcceptorEvent
  deriving DecidableEq, Repr

/-- Modelled from the spec: the declaration of `m_dispatchIndex` lives in
`UvTcpServer.h`, which is absent; the data model calls the cursor "unsigned",
so it is an unsigned machine integer of `w` bits and `m_dispatchIndex++`
wraps modulo `2 ^ w`. -/
def cursorIncr (w : Nat) (i : Nat) : Nat := (i + 1) % 2 ^ w

/-- Source: `static char dummyMessage[] = { 1, 2, 3, 4 }`. -/
def dummyMessage : List Byte := [1, 2, 3, 4]

/-- The constructor: cursor `0`, probe enabled, token drawn from the RNG
(passed in as `token`). -/
def UvTcpServer.new (token : List Byte) : UvTcpServer :=
  { m_helloMessage := token, m_createdPipes := [], m_dispatchPipes := [],
    m_dispatchIndex := 0, m_tryDetachFromIOCP := true, events := [] }

/-- Insertion into a `std::set`. -/
def setInsert (p : PipeId) (xs : List PipeId) : List PipeId :=
  if p ∈ xs then xs else xs ++ [p]

/-- Removal `std::set::erase(key)`; erasing the null pointer (a failed `lock()`)
removes nothing. -/
def setErase (p : Option PipeId) (xs : List PipeId) : List PipeId :=
  match p with
  | none => xs
  | some q => xs.filter (fun x => x ≠ q)

/-- Source `UvTcpServer::OnListenPipe`: the freshly accepted rendezvous pipe is put
in the pending set. -/
def UvTcpServer.OnListenPipe (s : UvTcpServer) (pipe : PipeId) : UvTcpServer :=
  { s with m_createdPipes := setInsert pipe s.m_createdPipes }

/-- The `uvw::DataEvent` handler installed by `OnListenPipe`.  `locked` is
the result of `pipeWeak.lock()`, `data` the `event.length` bytes received.
The handler only erases a rejected pipe from `m_createdPipes`: it does not
close the handle and does not remove itself, so further data events on the
same pipe reach it again. -/
def UvTcpServer.onPipeData (s : UvTcpServer) (locked : Option PipeId)
    (data : List Byte) : UvTcpServer :=
  if data.length = 0 then
    { s with m_createdPipes := setErase locked s.m_createdPipes }
  else if data.length ≠ s.m_helloMessage.length then
    { s with m_createdPipes := setErase locked s.m_createdPipes }
  else
    match locked with
    | none => s
    | some pipe =>
      -- memcmp over m_helloMessage.size() bytes
      if data.take s.m_helloMessage.length ≠ s.m_helloMessage then
        { s with m_createdPipes := setErase (some pipe) s.m_createdPipes }
      else
        { s with m_dispatchPipes := s.m_dispatchPipes ++ [pipe] }

/-- Successive data events on one rendezvous pipe whose weak pointer locks,
in order of arrival. -/
def UvTcpServer.runPipeData (p : PipeId) : UvTcpServer → List (List Byte) → UvTcpServer
  | s, [] => s
  | s, data :: rest => UvTcpServer.runPipeData p (s.onPipeData (some p) data) rest

/-- The `uvw::EndEvent` handler installed by `OnListenPipe`. -/
def UvTcpServer.onPipeEnd (s : UvTcpServer) (locked : Option PipeId) : UvTcpServer :=
  { s with m_createdPipes := setErase locked s.m_createdPipes }

/-- Source `UvTcpServer::OnConnection`.  `w` is the width of the cursor, `win32`
says whether the `_WIN32` block is compiled in, `unsupported` is whether
`NtSetInformationFile` answers `STATUS_INVALID_INFO_CLASS`, and `c` names the
client handle created for this call. -/
def UvTcpServer.OnConnection (w : Nat) (win32 unsupported : Bool)
    (s : UvTcpServer) (status : Int) (c : ConnId) : UvTcpServer :=
  if status < 0 then s
  else
    let s1 := { s with events := s.events ++ [AcceptorEvent.accepted c] }
    if s1.m_dispatchPipes.isEmpty then
      { s1 with events := s1.events ++ [AcceptorEvent.closed c] }
    else
      let index := s1.m_dispatchIndex % s1.m_dispatchPipes.length
      let s2 := { s1 with m_dispatchIndex := cursorIncr w s1.m_dispatchIndex }
      if index = s2.m_dispatchPipes.length then s2
      else
        let s3 :=
          if win32 && s2.m_tryDetachFromIOCP && unsupported then
            { s2 with m_tryDetachFromIOCP := false }
          else s2
        match s3.m_dispatchPipes[index]? with
        | none => s3
        | some pipe =>
          { s3 with events := s3.events ++ [AcceptorEvent.transferred pipe c dummyMessage] }

/-- A run of the listen socket: one `OnConnection` per entry, in order. -/
def UvTcpServer.runConnections (w : Nat) (win32 unsupported : Bool) :
    UvTcpServer → List (Int × ConnId) → UvTcpServer
  | s, [] => s
  | s, (status, c) :: rest =>
    UvTcpServer.runConnections w win32 unsupported
      (UvTcpServer.OnConnection w win32 unsupported s status c) rest

/-- The hand-offs in a log, oldest first: which pipe got which connection. -/
def transfersOf : List AcceptorEvent → List (PipeId × ConnId)
  | [] => []
  | AcceptorEvent.transferred p c _ :: rest => (p, c) :: transfersOf rest
  | _ :: rest => transfersOf rest

/-- The connections closed by the acceptor in a log. -/
def closedOf : List AcceptorEvent → List ConnId
  | [] => []
  | AcceptorEvent.closed c :: rest => c :: closedOf rest
  | _ :: rest => closedOf rest

/-- The connections of a run that `OnConnection` takes past its error check. -/
def goodConns (calls : List (Int × ConnId)) : List ConnId :=
  (calls.filter (fun x => decide (0 ≤ x.1))).map Prod.snd

/-- The worker that the `i`-th accepted connection goes to when the cursor has
`w` bits. -/
def target (w : Nat) (pipes : List PipeId) (ic : Nat × ConnId) : PipeId × ConnId :=
  (pipes.getD ((ic.1 % 2 ^ w) % pipes.length) 0, ic.2)

/-! ## Connection stream -/

/-- A stream operation called from the body of a user callback.  User
callbacks run on the owning thread, so `write` takes the direct path, and a
`ScheduleCallback` made there runs its argument inline, which is the same as
having its operations in the body.  Bodies that install new callbacks are not
covered. -/
inductive Op where
  /-- Call of `Write(data)`. -/
  | write (data : List Byte)
  /-- Call of `Close()`. -/
  | close
  /-- Call of `CloseClient()`. -/
  | closeClient
  deriving DecidableEq, Repr

/-- A closure stored in `m_pendingRequests`. -/
inductive Task where
  /-- The lambda pushed by `WriteInternal` off the owning thread. -/
  | write (data : List Byte)
  /-- The callback pushed by `ScheduleCallback` off the owning thread. -/
  | callback (body : List Op)
  /-- The lambda pushed by `Close`. -/
  | close
  deriving DecidableEq, Repr

/-- Effects of a stream on its socket, its wake handle, its user callbacks
and its owning worker. -/
inductive StreamEvent where
  /-- Source: `client->write(std::move(data), size)`. -/
  | sockWrite (data : List Byte)
  /-- Source: `writeCallback->send()`. -/
  | wakeSend
  /-- Source: `writeCallback->clear()`. -/
  | wakeClear
  /-- Source: `writeCallback->close()`. -/
  | wakeClose
  /-- Source: `client->clear()`. -/
  | sockClear
  /-- Source: `client->stop()`. -/
  | sockStop
  /-- Source: `client->close()`. -/
  | sockClose
  /-- Source: `m_client = {}`. -/
  | sockRelease
  /-- Source: `GetReadCallback()(targetBuf)`. -/
  | readCallback (data : List Byte)
  /-- Entry into `closeCallback()`. -/
  | closeCallbackBegin
  /-- Return from `closeCallback()`. -/
  | closeCallbackEnd
  /-- Source: `m_server->RemoveStream(this)`. -/
  | removeStream
  deriving DecidableEq, Repr

/-- The members of `UvTcpServerStream`, with the two callbacks of its base
class and the log of its effects. -/
structure UvTcpServerStream where
  /-- Member `std::shared_ptr<uvw::TCPHandle> m_client`; `none` is the null pointer. -/
  m_client : Option ConnId
  m_closingClient : Bool
  /-- Whether `m_writeCallback` is non-null. -/
  m_writeCallback : Bool
  /-- The queue `m_pendingRequests`, front first. -/
  m_pendingRequests : List Task
  /-- The read callback; its body may depend on the bytes delivered. -/
  m_readCallback : Option (List Byte → List Op)
  /-- The close callback. -/
  m_closeCallback : Option (List Op)
  /-- Log of effects, oldest first. -/
  events : List StreamEvent

namespace UvTcpServerStream

/-- Append effects to the log. -/
def emit (s : UvTcpServerStream) (es : List StreamEvent) : UvTcpServerStream :=
  { s with events := s.events ++ es }

/-- The constructor followed by a successful `Accept(client)`: the socket is
held, the wake handle allocated, the queue empty. -/
def Accept (client : ConnId) (readCallback : Option (List Byte → List Op))
    (closeCallback : Option (List Op)) : UvTcpServerStream :=
  { m_client := some client, m_closingClient := false, m_writeCallback := true,
    m_pendingRequests := [], m_readCallback := readCallback,
    m_closeCallback := closeCallback, events := [] }

/-- Source `UvTcpServerStream::WriteInternal`; `onOwner` is the outcome of
`std::this_thread::get_id() == m_threadId`. -/
def WriteInternal (onOwner : Bool) (s : UvTcpServerStream) (data : List Byte) :
    UvTcpServerStream :=
  match s.m_client with
  | none => s
  | some _ =>
    if onOwner then
      s.emit [StreamEvent.sockWrite data]
    else if s.m_writeCallback then
      { s with m_pendingRequests := s.m_pendingRequests ++ [Task.write data],
               events := s.events ++ [StreamEvent.wakeSend] }
    else s

/-- Source `UvTcpServerStream::Write`: the bytes are copied and handed to
`WriteInternal` with their size. -/
def Write (onOwner : Bool) (s : UvTcpServerStream) (data : List Byte) :
    UvTcpServerStream :=
  WriteInternal onOwner s (data.take data.length)

/-- Source `UvTcpServerStream::Close`. -/
def Close (s : UvTcpServerStream) : UvTcpServerStream :=
  match s.m_client with
  | none => s
  | some _ =>
    if !s.m_writeCallback then s
    else
      { s with m_pendingRequests := s.m_pendingRequests ++ [Task.close],
               events := s.events ++ [StreamEvent.wakeSend] }

/-- Source `UvTcpServerStream::GetPeerAddress`; `peer` is what
`uv_tcp_getpeername` reports, `none` the empty `PeerAddress`. -/
def GetPeerAddress {α : Type} (s : UvTcpServerStream) (peer : α) : Option α :=
  match s.m_client with
  | none => none
  | some _ => some peer

mutual
/-- Source `UvTcpServerStream::CloseClient`. -/
def CloseClient : Nat → UvTcpServerStream → Option UvTcpServerStream
  | 0, _ => none
  | fuel + 1, s =>
    match s.m_client with
    | none => some s
    | some _ =>
      if s.m_closingClient then some s
      else
        let writeCallback := s.m_writeCallback
        let s1 := { s with m_closingClient := true, m_writeCallback := false }
        match HandlePendingWrites fuel s1 with
        | none => none
        | some s2 =>
          let s3 := if writeCallback then
            s2.emit [StreamEvent.wakeClear, StreamEvent.wakeClose] else s2
          some { s3 with m_client := none,
                         events := s3.events ++ [StreamEvent.sockClear, StreamEvent.sockStop,
                           StreamEvent.sockClose, StreamEvent.sockRelease] }

/-- Source `UvTcpServerStream::HandlePendingWrites`. -/
def HandlePendingWrites : Nat → UvTcpServerStream → Option UvTcpServerStream
  | 0, _ => none
  | fuel + 1, s =>
    match s.m_client with
    | none => some s
    | some _ => drainLoop fuel s

/-- The loop `while (m_pendingRequests.try_pop(request))` of
`HandlePendingWrites`. -/
def drainLoop : Nat → UvTcpServerStream → Option UvTcpServerStream
  | 0, _ => none
  | fuel + 1, s =>
    match s.m_pendingRequests with
    | [] => some s
    | request :: rest =>
      let s1 := { s with m_pendingRequests := rest }
      match s1.m_client with
      | none => drainLoop fuel s1
      | some _ =>
        match runTask fuel request s1 with
        | none => none
        | some s2 => drainLoop fuel s2

/-- The call `request()` of a queued closure. -/
def runTask : Nat → Task → UvTcpServerStream → Option UvTcpServerStream
  | 0, _, _ => none
  | _ + 1, Task.write data, s =>
    match s.m_client with
    | none => some s
    | some _ => some (s.emit [StreamEvent.sockWrite data])
  | fuel + 1, Task.callback body, s => runOps fuel body s
  | fuel + 1, Task.close, s =>
    match CloseClient fuel s with
    | none => none
    | some s1 =>
      let s2 := { s1 with m_readCallback := none }
      match s2.m_closeCallback with
      | none => some (s2.emit [StreamEvent.removeStream])
      | some closeCallback =>
        let s3 := { s2 with m_closeCallback := none,
                            events := s2.events ++ [StreamEvent.closeCallbackBegin] }
        match runOps fuel closeCallback s3 with
        | none => none
        | some s4 => some (s4.emit [StreamEvent.closeCallbackEnd, StreamEvent.removeStream])

/-- The body of a user callback, one operation after the other. -/
def runOps : Nat → List Op → UvTcpServerStream → Option UvTcpServerStream
  | 0, _, _ => none
  | _ + 1, [], s => some s
  | fuel + 1, op :: ops, s =>
    match runOp fuel op s with
    | none => none
    | some s1 => runOps fuel ops s1

/-- One stream operation called from a user callback. -/
def runOp : Nat → Op → UvTcpServerStream → Option UvTcpServerStream
  | 0, _, _ => none
  | _ + 1, Op.write data, s => some (Write true s data)
  | _ + 1, Op.close, s => some (Close s)
  | fuel + 1, Op.closeClient, s => CloseClient fuel s
end

/-- Source `UvTcpServerStream::ScheduleCallback`. -/
def ScheduleCallback (fuel : Nat) (onOwner : Bool) (callback : List Op)
    (s : UvTcpServerStream) : Option UvTcpServerStream :=
  if onOwner then runOps fuel callback s
  else if s.m_writeCallback then
    some { s with m_pendingRequests := s.m_pendingRequests ++ [Task.callback callback],
                  events := s.events ++ [StreamEvent.wakeSend] }
  else some s

/-- Source `UvTcpServerStream::HandleRead`; `buf` holds at least `nread`
bytes when `nread` is positive. -/
def HandleRead (fuel : Nat) (nread : Int) (buf : List Byte)
    (s : UvTcpServerStream) : Option UvTcpServerStream :=
  if nread > 0 then
    let targetBuf := buf.take nread.toNat
    match s.m_readCallback with
    | none => some s
    | some readCallback =>
      runOps fuel (readCallback targetBuf) (s.emit [StreamEvent.readCallback targetBuf])
  else if nread ≤ 0 then some (Close s)
  else some s

/-- The entry points of a stream after `Accept`. -/
inductive Call where
  | write (onOwner : Bool) (data : List Byte)
  | scheduleCallback (onOwner : Bool) (callback : List Op)
  | close
  | handleRead (nread : Int) (buf : List Byte)
  | handlePendingWrites
  | closeClient
  | getPeerAddress

/-- One entry point applied to a stream.  `GetPeerAddress` only reads the
socket pointer and returns a value, so it leaves the stream as it is. -/
def exec (fuel : Nat) : Call → UvTcpServerStream → Option UvTcpServerStream
  | Call.write onOwner data, s => some (Write onOwner s data)
  | Call.scheduleCallback onOwner callback, s => ScheduleCallback fuel onOwner callback s
  | Call.close, s => some (Close s)
  | Call.handleRead nread buf, s => HandleRead fuel nread buf s
  | Call.handlePendingWrites, s => HandlePendingWrites fuel s
  | Call.closeClient, s => CloseClient fuel s
  | Call.getPeerAddress, s => some s

/-- A sequence of entry points, in order. -/
def execAll (fuel : Nat) : List Call → UvTcpServerStream → Option UvTcpServerStream
  | [], s => some s
  | call :: rest, s =>
    match exec fuel call s with
    | none => none
    | some s1 => execAll fuel rest s1

/-! ### Fuel that always suffices -/

/-- Fuel charged for an operation of a callback body. -/
def opWeight : Op → Nat
  | Op.write _ => 1
  | Op.close => 6
  | Op.closeClient => 1

/-- Fuel charged for a callback body. -/
def opsWeight : List Op → Nat
  | [] => 0
  | op :: ops => opWeight op + opsWeight ops

/-- Fuel charged for a queued closure. -/
def taskWeight : Task → Nat
  | Task.write _ => 1
  | Task.callback body => opsWeight body + 5
  | Task.close => 5

/-- Fuel charged for a queue. -/
def queueWeight : List Task → Nat
  | [] => 0
  | t :: q => taskWeight t + queueWeight q

/-- Fuel charged for the work a stream still holds: its queue and its close
callback. -/
def potential (s : UvTcpServerStream) : Nat :=
  queueWeight s.m_pendingRequests +
    (match s.m_closeCallback with
     | none => 0
     | some body => opsWeight body)

/-- Fuel charged for the body the read callback runs on the bytes of one
read. -/
def readCost (s : UvTcpServerStream) (nread : Int) (buf : List Byte) : Nat :=
  match s.m_readCallback with
  | none => 0
  | some readCallback => opsWeight (readCallback (buf.take nread.toNat))

/-- Fuel that suffices for one entry point on a stream. -/
def fuelBound : Call → UvTcpServerStream → Nat
  | Call.scheduleCallback _ callback, s => potential s + opsWeight callback + 4
  | Call.handleRead nread buf, s => potential s + 4 + readCost s nread buf
  | _, s => potential s + 3

/-- What one entry point may add to the potential of a stream. -/
def callCost (s : UvTcpServerStream) : Call → Nat
  | Call.write _ _ => 1
  | Call.scheduleCallback _ callback => opsWeight callback + 5
  | Call.close => 5
  | Call.handleRead nread buf => 5 + readCost s nread buf
  | _ => 0

/-- What a sequence of entry points may add to the potential of a stream. -/
def seqCost (s : UvTcpServerStream) : List Call → Nat
  | [] => 0
  | call :: rest => callCost s call + seqCost s rest

/-! ### Lifecycle -/

/-- The three lifecycle states of a stream. -/
inductive Lifecycle where
  | active
  | closing
  | closed
  deriving DecidableEq, Repr

/-- Position of a lifecycle state along Active, Closing, Closed. -/
def Lifecycle.rank : Lifecycle → Nat
  | Lifecycle.active => 0
  | Lifecycle.closing => 1
  | Lifecycle.closed => 2

/-- Active is socket held with the teardown flag clear, Closing is the flag
set with the socket still held, Closed is the socket released. -/
def lifecycle (s : UvTcpServerStream) : Lifecycle :=
  match s.m_client with
  | none => Lifecycle.closed
  | some _ => if s.m_closingClient then Lifecycle.closing else Lifecycle.active

/-! ### Named pieces of `CloseClient` and of the close closure -/

/-- The state in which `CloseClient` calls `HandlePendingWrites`: the flag is
set and the wake handle has been moved out of the member. -/
def beginTeardown (s : UvTcpServerStream) : UvTcpServerStream :=
  { s with m_closingClient := true, m_writeCallback := false }

/-- The tail of `CloseClient` after the drain: the wake handle (when there was
one) is cleared and closed, the socket is cleared, stopped, closed and
released. -/
def finishTeardown (writeCallback : Bool) (s : UvTcpServerStream) : UvTcpServerStream :=
  { (if writeCallback then
      s.emit [StreamEvent.wakeClear, StreamEvent.wakeClose] else s) with
    m_client := none,
    events := (if writeCallback then
        s.emit [StreamEvent.wakeClear, StreamEvent.wakeClose] else s).events ++
      [StreamEvent.sockClear, StreamEvent.sockStop, StreamEvent.sockClose,
       StreamEvent.sockRelease] }

/-- The close closure when no close callback is set: the read callback is
cleared and the worker is asked to remove the stream. -/
def skipCallback (s : UvTcpServerStream) : UvTcpServerStream :=
  ({ s with m_readCallback := none } : UvTcpServerStream).emit [StreamEvent.removeStream]

/-- The close closure up to the call of the close callback: the read callback
is cleared, the close callback is cleared, then it is entered. -/
def enterCallback (s : UvTcpServerStream) : UvTcpServerStream :=
  { s with m_readCallback := none, m_closeCallback := none,
           events := s.events ++ [StreamEvent.closeCallbackBegin] }

/-- The close closure after the close callback returned. -/
def leaveCallback (s : UvTcpServerStream) : UvTcpServerStream :=
  s.emit [StreamEvent.closeCallbackEnd, StreamEvent.removeStream]

/-- The queue after `try_pop` took its front element. -/
def popped (s : UvTcpServerStream) (rest : List Task) : UvTcpServerStream :=
  { s with m_pendingRequests := rest }

/-- The events of the socket teardown. -/
def isTeardown : StreamEvent → Bool
  | StreamEvent.sockClear => true
  | StreamEvent.sockStop => true
  | StreamEvent.sockClose => true
  | StreamEvent.sockRelease => true
  | _ => false

/-- The socket teardown sequence of `CloseClient`. -/
def teardownSeq : List StreamEvent :=
  [StreamEvent.sockClear, StreamEvent.sockStop, StreamEvent.sockClose, StreamEvent.sockRelease]

/-- The teardown events a stream has performed so far. -/
def tdEvents (s : UvTcpServerStream) : List StreamEvent := s.events.filter isTeardown

/-- How often the close callback has been entered so far. -/
def cbBegins (s : UvTcpServerStream) : Nat := s.events.count StreamEvent.closeCallbackBegin

/-- The deliveries to the read callback. -/
def isRead : StreamEvent → Bool
  | StreamEvent.readCallback _ => true
  | _ => false

/-- The deliveries to the read callback so far. -/
def readsOf (s : UvTcpServerStream) : List StreamEvent := s.events.filter isRead

/-- The teardown has been performed once if the socket is released and not at
all if it is held. -/
def TdInv (s : UvTcpServerStream) : Prop :=
  tdEvents s = if s.m_client.isNone then teardownSeq else []

/-- The close callback has been entered once if it is cleared and not at all
if it is still set. -/
def CbInv (s : UvTcpServerStream) : Prop :=
  cbBegins s = if s.m_closeCallback.isNone then 1 else 0

/-- What every step of a stream respects: the teardown flag is never reset,
the socket is never re-acquired or exchanged, callbacks are only ever cleared,
a step that starts with the flag set neither releases the socket nor performs
teardown events, and the two counting invariants are kept. -/
structure Safe (s s' : UvTcpServerStream) : Prop where
  closing_mono : s.m_closingClient = true → s'.m_closingClient = true
  client_mono : s'.m_client = none ∨ s'.m_client = s.m_client
  read_mono : s'.m_readCallback = none ∨ s'.m_readCallback = s.m_readCallback
  closecb_mono : s'.m_closeCallback = none ∨ s'.m_closeCallback = s.m_closeCallback
  closing_frame : s.m_closingClient = true →
    s'.m_client = s.m_client ∧ tdEvents s' = tdEvents s
  td_inv : TdInv s → TdInv s'
  cb_inv : CbInv s → CbInv s'

/-- A step that is safe and delivers nothing to the read callback. -/
def Inner (s s' : UvTcpServerStream) : Prop := Safe s s' ∧ readsOf s' = readsOf s

/-- A close closure is queued on a stream that still holds its socket. -/
def Pending (s : UvTcpServerStream) : Prop :=
  (∃ c, s.m_client = some c) ∧ Task.close ∈ s.m_pendingRequests

/-- The close closure is still queued after a step, and the step did not
touch the teardown flag. -/
def StillPending (s s' : UvTcpServerStream) : Prop :=
  Pending s' ∧ s'.m_closingClient = s.m_closingClient

/-- A close closure has run: both callbacks are cleared, and the socket is
released unless the step started inside a teardown that is still to finish. -/
def Closed (s s' : UvTcpServerStream) : Prop :=
  s'.m_readCallback = none ∧ s'.m_closeCallback = none ∧
    (s.m_closingClient = false → s'.m_client = none)

/-- The effects of the close closure after the teardown: the close callback
(if one is set) is entered and left, then the worker is asked to remove the
stream. -/
def closeTail (closeCallback : Option (List Op)) : List StreamEvent :=
  match closeCallback with
  | none => [StreamEvent.removeStream]
  | some _ => [StreamEvent.closeCallbackBegin, StreamEvent.closeCallbackEnd,
      StreamEvent.removeStream]

end UvTcpServerStream

/-! # Theorems -/

/-! ## Acceptor: lemmas -/

theorem transfersOf_append (xs ys : List AcceptorEvent) :
    transfersOf (xs ++ ys) = transfersOf xs ++ transfersOf ys := by
  induction xs with
  | nil => rfl
  | cons x xs ih => cases x <;> simp [transfersOf, ih]

theorem closedOf_append (xs ys : List AcceptorEvent) :
    closedOf (xs ++ ys) = closedOf xs ++ closedOf ys := by
  induction xs with
  | nil => rfl
  | cons x xs ih => cases x <;> simp [closedOf, ih]

theorem OnConnection_error (w : Nat) (win32 unsupported : Bool) (s : UvTcpServer)
    (status : Int) (c : ConnId) (h : status < 0) :
    UvTcpServer.OnConnection w win32 unsupported s status c = s := by
  simp [UvTcpServer.OnConnection, h]

theorem index_lt (cursor : Nat) (pipes : List PipeId) (h : pipes ≠ []) :
    cursor % pipes.length < pipes.length :=
  Nat.mod_lt _ (List.length_pos.mpr h)

/-- With a non-empty ready list, an accepted connection is handed to the pipe
under the cursor and the cursor advances; the ready list is untouched. -/
theorem OnConnection_dispatch (w : Nat) (win32 unsupported : Bool) (s : UvTcpServer)
    (status : Int) (c : ConnId) (hst : 0 ≤ status) (h : s.m_dispatchPipes ≠ []) :
    (UvTcpServer.OnConnection w win32 unsupported s status c).m_dispatchPipes
        = s.m_dispatchPipes ∧
    (UvTcpServer.OnConnection w win32 unsupported s status c).m_dispatchIndex
        = cursorIncr w s.m_dispatchIndex ∧
    (UvTcpServer.OnConnection w win32 unsupported s status c).events
        = s.events ++ [AcceptorEvent.accepted c,
            AcceptorEvent.transferred
              (s.m_dispatchPipes.getD (s.m_dispatchIndex % s.m_dispatchPipes.length) 0)
              c dummyMessage] := by
  have hlt := index_lt s.m_dispatchIndex s.m_dispatchPipes h
  have hne : s.m_dispatchIndex % s.m_dispatchPipes.length ≠ s.m_dispatchPipes.length :=
    Nat.ne_of_lt hlt
  obtain ⟨p, hp⟩ : ∃ p, s.m_dispatchPipes[s.m_dispatchIndex % s.m_dispatchPipes.length]? = some p :=
    ⟨_, List.getElem?_eq_getElem hlt⟩
  have hd : s.m_dispatchPipes.getD (s.m_dispatchIndex % s.m_dispatchPipes.length) 0 = p := by
    rw [List.getD_eq_getElem?_getD, hp]; rfl
  have hst' : ¬ status < 0 := not_lt.mpr hst
  have hemp : s.m_dispatchPipes.isEmpty = false := by
    cases hq : s.m_dispatchPipes with
    | nil => exact absurd hq h
    | cons a l => rfl
  rw [hd]
  unfold UvTcpServer.OnConnection
  simp only [hst', if_false, hemp, hne, hp]
  by_cases hb : (win32 && s.m_tryDetachFromIOCP && unsupported) = true
  · simp [hb, hp]
  · simp [hb, hp]

theorem goodConns_cons_good (status : Int) (c : ConnId) (rest : List (Int × ConnId))
    (h : 0 ≤ status) : goodConns ((status, c) :: rest) = c :: goodConns rest := by
  simp [goodConns, h]

theorem goodConns_cons_bad (status : Int) (c : ConnId) (rest : List (Int × ConnId))
    (h : status < 0) : goodConns ((status, c) :: rest) = goodConns rest := by
  simp [goodConns, not_le.mpr h]

theorem cursorIncr_mod (w k : Nat) : cursorIncr w (k % 2 ^ w) = (k + 1) % 2 ^ w := by
  unfold cursorIncr
  exact Nat.mod_add_mod k (2 ^ w) 1

theorem runConnections_spec (w : Nat) (win32 unsupported : Bool) :
    ∀ (calls : List (Int × ConnId)) (s : UvTcpServer) (k : Nat),
      s.m_dispatchPipes ≠ [] → s.m_dispatchIndex = k % 2 ^ w →
      (UvTcpServer.runConnections w win32 unsupported s calls).m_dispatchPipes
          = s.m_dispatchPipes ∧
      (UvTcpServer.runConnections w win32 unsupported s calls).m_dispatchIndex
          = (k + (goodConns calls).length) % 2 ^ w ∧
      transfersOf (UvTcpServer.runConnections w win32 unsupported s calls).events
          = transfersOf s.events ++
              ((goodConns calls).enumFrom k).map (target w s.m_dispatchPipes) ∧
      closedOf (UvTcpServer.runConnections w win32 unsupported s calls).events
          = closedOf s.events := by
  intro calls
  induction calls with
  | nil =>
    intro s k _ hk
    simp [UvTcpServer.runConnections, goodConns, hk]
  | cons call rest ih =>
    intro s k hne hk
    obtain ⟨status, c⟩ := call
    by_cases hst : status < 0
    · rw [goodConns_cons_bad _ _ _ hst]
      simp only [UvTcpServer.runConnections, OnConnection_error _ _ _ _ _ _ hst]
      exact ih s k hne hk
    · have hst' : 0 ≤ status := not_lt.mp hst
      obtain ⟨hp, hi, he⟩ := OnConnection_dispatch w win32 unsupported s status c hst' hne
      rw [goodConns_cons_good _ _ _ hst']
      simp only [UvTcpServer.runConnections]
      have hi' : (UvTcpServer.OnConnection w win32 unsupported s status c).m_dispatchIndex
          = (k + 1) % 2 ^ w := by rw [hi, hk, cursorIncr_mod]
      obtain ⟨h1, h2, h3, h4⟩ :=
        ih (UvTcpServer.OnConnection w win32 unsupported s status c) (k + 1)
          (by rw [hp]; exact hne) hi'
      refine ⟨by rw [h1, hp], ?_, ?_, ?_⟩
      · rw [h2]; congr 1; simp only [List.length_cons]; omega
      · rw [h3, he, hp, transfersOf_append]
        simp only [transfersOf, List.enumFrom_cons, List.map_cons, List.append_assoc,
          List.singleton_append, List.nil_append, target, hk]
      · rw [h4, he, closedOf_append]
        simp [closedOf]

theorem goodConns_replicate (n : Nat) (c : ConnId) :
    (goodConns (List.replicate n ((0 : Int), c))).length = n := by
  induction n with
  | zero => rfl
  | succ n ih => rw [List.replicate_succ, goodConns_cons_good _ _ _ (le_refl 0), List.length_cons, ih]

/-- After `n` accepted connections from a zero cursor, the next one goes to
the ready-list position `(n mod 2^w) mod N`. -/
theorem OnConnection_after (w : Nat) (win32 unsupported : Bool) (s : UvTcpServer) (n : Nat)
    (c : ConnId) (hN : s.m_dispatchPipes ≠ []) (h0 : s.m_dispatchIndex = 0) :
    (UvTcpServer.OnConnection w win32 unsupported
        (UvTcpServer.runConnections w win32 unsupported s (List.replicate n ((0 : Int), 0)))
        0 c).events
      = (UvTcpServer.runConnections w win32 unsupported s
          (List.replicate n ((0 : Int), 0))).events ++
        [AcceptorEvent.accepted c,
         AcceptorEvent.transferred
           (s.m_dispatchPipes.getD ((n % 2 ^ w) % s.m_dispatchPipes.length) 0) c dummyMessage] := by
  obtain ⟨h1, h2, _, _⟩ := runConnections_spec w win32 unsupported
    (List.replicate n ((0 : Int), 0)) s 0 hN (by rw [h0, Nat.zero_mod])
  rw [goodConns_replicate, Nat.zero_add] at h2
  obtain ⟨_, _, he⟩ := OnConnection_dispatch w win32 unsupported
    (UvTcpServer.runConnections w win32 unsupported s (List.replicate n ((0 : Int), 0)))
    0 c (le_refl 0) (by rw [h1]; exact hN)
  rw [he, h1, h2]

/-- C1 (amended): with a ready list of fixed length `N ≥ 1` and the cursor at
`0`, the `i`-th connection that `OnConnection` handles with `status ≥ 0` is
transferred to the ready-list position `(i mod 2^w) mod N`, where `w` is the
bit width of the unsigned cursor; this is `i mod N` for every `i < 2^w`.  The
index is always `< N`, every such connection is handed to exactly one worker,
none is closed, and the ready list is unchanged. -/
theorem C1_round_robin_up_to_cursor_wrap (w : Nat) (win32 unsupported : Bool)
    (s : UvTcpServer) (calls : List (Int × ConnId))
    (hN : s.m_dispatchPipes ≠ []) (h0 : s.m_dispatchIndex = 0) :
    transfersOf (UvTcpServer.runConnections w win32 unsupported s calls).events
        = transfersOf s.events ++ ((goodConns calls).enum).map (target w s.m_dispatchPipes) ∧
    closedOf (UvTcpServer.runConnections w win32 unsupported s calls).events
        = closedOf s.events ∧
    (UvTcpServer.runConnections w win32 unsupported s calls).m_dispatchPipes
        = s.m_dispatchPipes ∧
    (∀ i : Nat, (i % 2 ^ w) % s.m_dispatchPipes.length < s.m_dispatchPipes.length) ∧
    (∀ i : Nat, i < 2 ^ w →
        (i % 2 ^ w) % s.m_dispatchPipes.length = i % s.m_dispatchPipes.length) := by
  obtain ⟨h1, _, h3, h4⟩ := runConnections_spec w win32 unsupported calls s 0 hN
    (by rw [h0, Nat.zero_mod])
  refine ⟨h3, h4, h1, fun i => index_lt _ _ hN, fun i hi => ?_⟩
  rw [Nat.mod_eq_of_lt hi]

/-- Witness for C1: three ready workers, five calls of which one fails. -/
theorem C1_round_robin_up_to_cursor_wrap_witness :
    transfersOf (UvTcpServer.runConnections 32 false false
        { UvTcpServer.new [] with m_dispatchPipes := [10, 11, 12] }
        [(0, 100), (0, 101), (-1, 102), (0, 103), (0, 104)]).events
      = [(10, 100), (11, 101), (12, 103), (10, 104)] := by
  have h := (C1_round_robin_up_to_cursor_wrap 32 false false
    { UvTcpServer.new [] with m_dispatchPipes := [10, 11, 12] }
    [(0, 100), (0, 101), (-1, 102), (0, 103), (0, 104)] (by decide) rfl).1
  rw [h]
  decide

/-- C1 (counterexample): with a 32-bit cursor and three ready workers, the
connection number `2^32` (counting from 0) is transferred to position 0 of the
ready list (pipe 10), whereas `2^32 mod 3 = 1` names position 1 (pipe 11); a
64-bit cursor does the same to connection number `2^64`. -/
theorem C1_counterexample_cursor_wrap :
    ((UvTcpServer.OnConnection 32 false false
        (UvTcpServer.runConnections 32 false false
          { UvTcpServer.new [] with m_dispatchPipes := [10, 11, 12] }
          (List.replicate (2 ^ 32) ((0 : Int), 0)))
        0 99).events
      = (UvTcpServer.runConnections 32 false false
          { UvTcpServer.new [] with m_dispatchPipes := [10, 11, 12] }
          (List.replicate (2 ^ 32) ((0 : Int), 0))).events ++
        [AcceptorEvent.accepted 99, AcceptorEvent.transferred 10 99 dummyMessage] ∧
      ([10, 11, 12] : List PipeId)[2 ^ 32 % 3]? = some 11) ∧
    ((UvTcpServer.OnConnection 64 false false
        (UvTcpServer.runConnections 64 false false
          { UvTcpServer.new [] with m_dispatchPipes := [10, 11, 12] }
          (List.replicate (2 ^ 64) ((0 : Int), 0)))
        0 99).events
      = (UvTcpServer.runConnections 64 false false
          { UvTcpServer.new [] with m_dispatchPipes := [10, 11, 12] }
          (List.replicate (2 ^ 64) ((0 : Int), 0))).events ++
        [AcceptorEvent.accepted 99, AcceptorEvent.transferred 10 99 dummyMessage] ∧
      ([10, 11, 12] : List PipeId)[2 ^ 64 % 3]? = some 11) := by
  refine ⟨⟨?_, by decide⟩, ⟨?_, by decide⟩⟩
  · have h := OnConnection_after 32 false false
      { UvTcpServer.new [] with m_dispatchPipes := [10, 11, 12] } (2 ^ 32) 99 (by decide) rfl
    rw [h]
    rfl
  · have h := OnConnection_after 64 false false
      { UvTcpServer.new [] with m_dispatchPipes := [10, 11, 12] } (2 ^ 64) 99 (by decide) rfl
    rw [h]
    rfl

/-- C3: when the ready list is empty, `OnConnection` with `status ≥ 0` accepts
the socket and closes it, writes no hand-off to any worker channel, leaves the
ready list empty and leaves the cursor unchanged. -/
theorem C3_no_ready_worker_closes (w : Nat) (win32 unsupported : Bool) (s : UvTcpServer)
    (status : Int) (c : ConnId) (hst : 0 ≤ status) (hempty : s.m_dispatchPipes = []) :
    (UvTcpServer.OnConnection w win32 unsupported s status c).events
        = s.events ++ [AcceptorEvent.accepted c, AcceptorEvent.closed c] ∧
    transfersOf (UvTcpServer.OnConnection w win32 unsupported s status c).events
        = transfersOf s.events ∧
    (UvTcpServer.OnConnection w win32 unsupported s status c).m_dispatchPipes = [] ∧
    (UvTcpServer.OnConnection w win32 unsupported s status c).m_dispatchIndex
        = s.m_dispatchIndex := by
  have hst' : ¬ status < 0 := not_lt.mpr hst
  have he : (UvTcpServer.OnConnection w win32 unsupported s status c)
      = { s with events := s.events ++ [AcceptorEvent.accepted c, AcceptorEvent.closed c] } := by
    unfold UvTcpServer.OnConnection
    simp [hst', hempty]
  rw [he]
  refine ⟨rfl, ?_, hempty, rfl⟩
  simp [transfersOf_append, transfersOf]

/-- Witness for C3: a fresh acceptor with no worker yet. -/
theorem C3_no_ready_worker_closes_witness :
    (UvTcpServer.OnConnection 32 true false (UvTcpServer.new []) 0 5).events
        = [AcceptorEvent.accepted 5, AcceptorEvent.closed 5] ∧
    (UvTcpServer.OnConnection 32 true false (UvTcpServer.new []) 0 5).m_dispatchIndex = 0 := by
  have h := C3_no_ready_worker_closes 32 true false (UvTcpServer.new []) 0 5 (le_refl 0) rfl
  exact ⟨h.1, h.2.2.2⟩

theorem not_mem_setErase (p : PipeId) (xs : List PipeId) : p ∉ setErase (some p) xs := by
  simp [setErase]

theorem append_singleton_ne_self (xs : List PipeId) (p : PipeId) : xs ++ [p] ≠ xs := by
  intro h
  have := congrArg List.length h
  simp at this

/-- The handshake handler adds the pipe exactly when the payload is the token. -/
theorem onPipeData_match (s : UvTcpServer) (p : PipeId) (data : List Byte)
    (hlen : s.m_helloMessage.length = 16) (h : data = s.m_helloMessage) :
    s.onPipeData (some p) data = { s with m_dispatchPipes := s.m_dispatchPipes ++ [p] } := by
  subst h
  unfold UvTcpServer.onPipeData
  simp [hlen]

/-- The handshake handler drops the pipe from the pending set on any other payload. -/
theorem onPipeData_mismatch (s : UvTcpServer) (p : PipeId) (data : List Byte)
    (h : data ≠ s.m_helloMessage) :
    s.onPipeData (some p) data
      = { s with m_createdPipes := setErase (some p) s.m_createdPipes } := by
  unfold UvTcpServer.onPipeData
  by_cases h0 : data.length = 0
  · simp [h0]
  · by_cases h1 : data.length = s.m_helloMessage.length
    · have ht : List.take s.m_helloMessage.length data = data := by
        rw [← h1]; exact List.take_length data
      simp [h0, h1, ht, h]
    · simp [h0, h1]

/-- A run of data events none of which carries the token leaves the ready list
as it is and the pipe outside the pending set. -/
theorem runPipeData_mismatches (p : PipeId) : ∀ (events : List (List Byte)) (s : UvTcpServer),
    (∀ e ∈ events, e ≠ s.m_helloMessage) →
    (UvTcpServer.runPipeData p s events).m_dispatchPipes = s.m_dispatchPipes ∧
    (events ≠ [] → p ∉ (UvTcpServer.runPipeData p s events).m_createdPipes) := by
  intro events
  induction events with
  | nil => intro s _; exact ⟨rfl, fun h => absurd rfl h⟩
  | cons e rest ih =>
    intro s hall
    have he : e ≠ s.m_helloMessage := hall e (List.mem_cons_self _ _)
    simp only [UvTcpServer.runPipeData]
    rw [onPipeData_mismatch s p e he]
    obtain ⟨h1, h2⟩ := ih { s with m_createdPipes := setErase (some p) s.m_createdPipes }
      (fun x hx => hall x (List.mem_cons_of_mem _ hx))
    refine ⟨h1, fun _ => ?_⟩
    cases rest with
    | nil => exact not_mem_setErase p _
    | cons r rest' => exact h2 (List.cons_ne_nil _ _)

/-- C2 (amended): with a 16-byte token, a data event on a rendezvous pipe `p`
whose weak pointer locks appends `p` to the ready list if and only if the
payload has length 16 and equals the token.  An event with any other payload
(length other than 16, zero included, or a differing byte) removes `p` from
the pending set and leaves the ready list unchanged; an event with exactly the
token appends `p` exactly once and changes nothing else.  A pipe none of whose
data events carries exactly the token never appears in the ready list. -/
theorem C2_handshake_per_event (s : UvTcpServer) (p : PipeId)
    (hlen : s.m_helloMessage.length = 16) :
    (∀ data : List Byte,
      ((s.onPipeData (some p) data).m_dispatchPipes = s.m_dispatchPipes ++ [p]
          ↔ (data.length = 16 ∧ data = s.m_helloMessage)) ∧
      (¬ (data.length = 16 ∧ data = s.m_helloMessage) →
          p ∉ (s.onPipeData (some p) data).m_createdPipes ∧
          (s.onPipeData (some p) data).m_dispatchPipes = s.m_dispatchPipes) ∧
      ((data.length = 16 ∧ data = s.m_helloMessage) →
          (s.onPipeData (some p) data).m_dispatchPipes = s.m_dispatchPipes ++ [p] ∧
          (s.onPipeData (some p) data).m_dispatchPipes.count p
            = s.m_dispatchPipes.count p + 1 ∧
          (s.onPipeData (some p) data).m_createdPipes = s.m_createdPipes)) ∧
    (∀ events : List (List Byte),
      (∀ e ∈ events, ¬ (e.length = 16 ∧ e = s.m_helloMessage)) →
      (UvTcpServer.runPipeData p s events).m_dispatchPipes = s.m_dispatchPipes ∧
      (p ∉ s.m_dispatchPipes → p ∉ (UvTcpServer.runPipeData p s events).m_dispatchPipes) ∧
      (events ≠ [] → p ∉ (UvTcpServer.runPipeData p s events).m_createdPipes)) := by
  refine ⟨fun data => ?_, fun events hall => ?_⟩
  · by_cases h : data = s.m_helloMessage
    · have hl : data.length = 16 := by rw [h]; exact hlen
      rw [onPipeData_match s p data hlen h]
      refine ⟨⟨fun _ => ⟨hl, h⟩, fun _ => rfl⟩, fun hn => absurd ⟨hl, h⟩ hn,
        fun _ => ⟨rfl, ?_, rfl⟩⟩
      simp
    · rw [onPipeData_mismatch s p data h]
      refine ⟨⟨fun hh => absurd hh.symm (append_singleton_ne_self s.m_dispatchPipes p),
          fun hh => absurd hh.2 h⟩,
        fun _ => ⟨not_mem_setErase p _, rfl⟩, fun hh => absurd hh.2 h⟩
  · have hall' : ∀ e ∈ events, e ≠ s.m_helloMessage := by
      intro e he heq
      exact hall e he ⟨by rw [heq]; exact hlen, heq⟩
    obtain ⟨h1, h2⟩ := runPipeData_mismatches p events s hall'
    exact ⟨h1, fun hp => by rw [h1]; exact hp, h2⟩

/-- Witness for C2: a pending pipe that sends the token is appended. -/
theorem C2_handshake_per_event_witness :
    (((UvTcpServer.new (List.replicate 16 7)).OnListenPipe 3).onPipeData
        (some 3) (List.replicate 16 7)).m_dispatchPipes = [] ++ [3] :=
  (((C2_handshake_per_event ((UvTcpServer.new (List.replicate 16 7)).OnListenPipe 3) 3
      (by decide)).1 (List.replicate 16 7)).1).mpr ⟨by decide, rfl⟩

/-- C2 (counterexample): a pending pipe that first sends one wrong byte is
erased from the pending set, yet when it then sends the token it is appended
to the ready list; and a pending pipe that sends the token twice is in the
ready list twice. -/
theorem C2_counterexample_two_events :
    ((((UvTcpServer.new (List.replicate 16 7)).OnListenPipe 3).onPipeData (some 3) [1]).m_createdPipes
        = [] ∧
      (UvTcpServer.runPipeData 3 ((UvTcpServer.new (List.replicate 16 7)).OnListenPipe 3)
        [[1], List.replicate 16 7]).m_dispatchPipes = [3]) ∧
    (UvTcpServer.runPipeData 3 ((UvTcpServer.new (List.replicate 16 7)).OnListenPipe 3)
        [List.replicate 16 7, List.replicate 16 7]).m_dispatchPipes = [3, 3] := by
  decide

namespace UvTcpServerStream

/-! ## Stream: unfolding lemmas -/

theorem zero_fuel (s : UvTcpServerStream) :
    CloseClient 0 s = none ∧ HandlePendingWrites 0 s = none ∧ drainLoop 0 s = none ∧
    (∀ t, runTask 0 t s = none) ∧ (∀ ops, runOps 0 ops s = none) ∧
    (∀ op, runOp 0 op s = none) := by
  refine ⟨by rw [CloseClient], by rw [HandlePendingWrites], by rw [drainLoop],
    fun t => by rw [runTask], fun ops => by rw [runOps], fun op => by rw [runOp]⟩

theorem CloseClient_succ (n : Nat) (s : UvTcpServerStream) :
    CloseClient (n + 1) s =
      match s.m_client with
      | none => some s
      | some _ =>
        if s.m_closingClient then some s
        else
          match HandlePendingWrites n (beginTeardown s) with
          | none => none
          | some s2 => some (finishTeardown s.m_writeCallback s2) := by
  rw [CloseClient]
  rfl

theorem CloseClient_none (n : Nat) (s : UvTcpServerStream) (h : s.m_client = none) :
    CloseClient (n + 1) s = some s := by
  rw [CloseClient_succ, h]

theorem CloseClient_closing (n : Nat) (s : UvTcpServerStream)
    (h : s.m_closingClient = true) : CloseClient (n + 1) s = some s := by
  rw [CloseClient_succ, h]; cases s.m_client <;> rfl

theorem CloseClient_live (n : Nat) (s : UvTcpServerStream) (c : ConnId)
    (hc : s.m_client = some c) (hcl : s.m_closingClient = false) :
    CloseClient (n + 1) s =
      (HandlePendingWrites n (beginTeardown s)).map (finishTeardown s.m_writeCallback) := by
  rw [CloseClient_succ, hc, hcl]
  simp only [Bool.false_eq_true, if_false]
  cases HandlePendingWrites n (beginTeardown s) <;> rfl

theorem HandlePendingWrites_none (n : Nat) (s : UvTcpServerStream) (h : s.m_client = none) :
    HandlePendingWrites (n + 1) s = some s := by
  rw [HandlePendingWrites]; simp [h]

theorem HandlePendingWrites_some (n : Nat) (s : UvTcpServerStream) (c : ConnId)
    (h : s.m_client = some c) : HandlePendingWrites (n + 1) s = drainLoop n s := by
  rw [HandlePendingWrites]; simp [h]

theorem drainLoop_succ (n : Nat) (s : UvTcpServerStream) :
    drainLoop (n + 1) s =
      match s.m_pendingRequests with
      | [] => some s
      | t :: q =>
        match s.m_client with
        | none => drainLoop n (popped s q)
        | some _ =>
          match runTask n t (popped s q) with
          | none => none
          | some s2 => drainLoop n s2 := by
  rw [drainLoop]
  rfl

theorem drainLoop_nil (n : Nat) (s : UvTcpServerStream) (h : s.m_pendingRequests = []) :
    drainLoop (n + 1) s = some s := by
  rw [drainLoop_succ, h]

theorem drainLoop_cons_none (n : Nat) (s : UvTcpServerStream) (t : Task) (q : List Task)
    (h : s.m_pendingRequests = t :: q) (hc : s.m_client = none) :
    drainLoop (n + 1) s = drainLoop n (popped s q) := by
  rw [drainLoop_succ, h, hc]

theorem drainLoop_cons_some (n : Nat) (s : UvTcpServerStream) (t : Task) (q : List Task)
    (c : ConnId) (h : s.m_pendingRequests = t :: q) (hc : s.m_client = some c) :
    drainLoop (n + 1) s = (runTask n t (popped s q)).bind (drainLoop n) := by
  rw [drainLoop_succ, h, hc]
  simp only
  cases runTask n t (popped s q) <;> rfl

theorem runTask_write_none (n : Nat) (data : List Byte) (s : UvTcpServerStream)
    (h : s.m_client = none) : runTask (n + 1) (Task.write data) s = some s := by
  rw [runTask]; simp [h]

theorem runTask_write_some (n : Nat) (data : List Byte) (s : UvTcpServerStream) (c : ConnId)
    (h : s.m_client = some c) :
    runTask (n + 1) (Task.write data) s = some (s.emit [StreamEvent.sockWrite data]) := by
  rw [runTask]; simp [h]

theorem runTask_callback (n : Nat) (body : List Op) (s : UvTcpServerStream) :
    runTask (n + 1) (Task.callback body) s = runOps n body s := by
  rw [runTask]

theorem runTask_close_succ (n : Nat) (s : UvTcpServerStream) :
    runTask (n + 1) Task.close s =
      match CloseClient n s with
      | none => none
      | some s1 =>
        match s1.m_closeCallback with
        | none => some (skipCallback s1)
        | some body =>
          match runOps n body (enterCallback s1) with
          | none => none
          | some s4 => some (leaveCallback s4) := by
  rw [runTask]
  rfl

theorem runTask_close_fail (n : Nat) (s : UvTcpServerStream) (h : CloseClient n s = none) :
    runTask (n + 1) Task.close s = none := by
  rw [runTask_close_succ, h]

theorem runTask_close_skip (n : Nat) (s s1 : UvTcpServerStream)
    (h : CloseClient n s = some s1) (hcb : s1.m_closeCallback = none) :
    runTask (n + 1) Task.close s = some (skipCallback s1) := by
  rw [runTask_close_succ, h]
  simp only [hcb]

theorem runTask_close_call (n : Nat) (s s1 : UvTcpServerStream) (body : List Op)
    (h : CloseClient n s = some s1) (hcb : s1.m_closeCallback = some body) :
    runTask (n + 1) Task.close s = (runOps n body (enterCallback s1)).map leaveCallback := by
  rw [runTask_close_succ, h]
  simp only [hcb]
  cases runOps n body (enterCallback s1) <;> rfl

theorem runOps_nil (n : Nat) (s : UvTcpServerStream) : runOps (n + 1) [] s = some s := by
  rw [runOps]

theorem runOps_cons (n : Nat) (op : Op) (ops : List Op) (s : UvTcpServerStream) :
    runOps (n + 1) (op :: ops) s = (runOp n op s).bind (runOps n ops) := by
  rw [runOps]
  cases runOp n op s <;> rfl

theorem runOp_write (n : Nat) (data : List Byte) (s : UvTcpServerStream) :
    runOp (n + 1) (Op.write data) s = some (Write true s data) := by
  rw [runOp]

theorem runOp_close (n : Nat) (s : UvTcpServerStream) :
    runOp (n + 1) Op.close s = some (Close s) := by
  rw [runOp]

theorem runOp_closeClient (n : Nat) (s : UvTcpServerStream) :
    runOp (n + 1) Op.closeClient s = CloseClient n s := by
  rw [runOp]

/-! ## Stream: safety of every step -/

theorem safe_refl (s : UvTcpServerStream) : Safe s s :=
  ⟨id, Or.inr rfl, Or.inr rfl, Or.inr rfl, fun _ => ⟨rfl, rfl⟩, id, id⟩

theorem safe_trans {a b c : UvTcpServerStream} (h1 : Safe a b) (h2 : Safe b c) : Safe a c where
  closing_mono := fun h => h2.closing_mono (h1.closing_mono h)
  client_mono := by
    rcases h2.client_mono with h | h
    · exact Or.inl h
    · rw [h]; exact h1.client_mono
  read_mono := by
    rcases h2.read_mono with h | h
    · exact Or.inl h
    · rw [h]; exact h1.read_mono
  closecb_mono := by
    rcases h2.closecb_mono with h | h
    · exact Or.inl h
    · rw [h]; exact h1.closecb_mono
  closing_frame := fun h => by
    obtain ⟨p1, p2⟩ := h1.closing_frame h
    obtain ⟨q1, q2⟩ := h2.closing_frame (h1.closing_mono h)
    exact ⟨q1.trans p1, q2.trans p2⟩
  td_inv := fun h => h2.td_inv (h1.td_inv h)
  cb_inv := fun h => h2.cb_inv (h1.cb_inv h)

/-- A step that keeps flag, socket and close callback, only clears the read
callback if it touches it, and adds neither teardown events nor a callback
entry, is safe. -/
theorem safe_of_same {s s' : UvTcpServerStream}
    (h1 : s'.m_closingClient = s.m_closingClient) (h2 : s'.m_client = s.m_client)
    (h3 : s'.m_readCallback = none ∨ s'.m_readCallback = s.m_readCallback)
    (h4 : s'.m_closeCallback = s.m_closeCallback)
    (h5 : tdEvents s' = tdEvents s) (h6 : cbBegins s' = cbBegins s) : Safe s s' where
  closing_mono := fun h => by rw [h1]; exact h
  client_mono := Or.inr h2
  read_mono := h3
  closecb_mono := Or.inr h4
  closing_frame := fun _ => ⟨h2, h5⟩
  td_inv := fun h => by unfold TdInv at *; rw [h5, h2]; exact h
  cb_inv := fun h => by unfold CbInv at *; rw [h6, h4]; exact h

theorem safe_emit (s : UvTcpServerStream) (es : List StreamEvent)
    (htd : es.filter isTeardown = []) (hcb : es.count StreamEvent.closeCallbackBegin = 0) :
    Safe s (s.emit es) :=
  safe_of_same rfl rfl (Or.inr rfl) rfl
    (by simp [tdEvents, UvTcpServerStream.emit, htd])
    (by simp [cbBegins, UvTcpServerStream.emit, hcb])

theorem safe_popped (s : UvTcpServerStream) (q : List Task) : Safe s (popped s q) :=
  safe_of_same rfl rfl (Or.inr rfl) rfl rfl rfl

theorem safe_skipCallback (s : UvTcpServerStream) : Safe s (skipCallback s) :=
  safe_of_same rfl rfl (Or.inl rfl) rfl
    (by simp [tdEvents, UvTcpServerStream.skipCallback, UvTcpServerStream.emit, isTeardown])
    (by simp [cbBegins, UvTcpServerStream.skipCallback, UvTcpServerStream.emit])

theorem safe_leaveCallback (s : UvTcpServerStream) : Safe s (leaveCallback s) :=
  safe_emit s _ (by simp [isTeardown]) (by simp)

theorem Close_of_none (s : UvTcpServerStream) (h : s.m_client = none) : Close s = s := by
  unfold UvTcpServerStream.Close; rw [h]

theorem Close_of_noWake (s : UvTcpServerStream) (h : s.m_writeCallback = false) :
    Close s = s := by
  unfold UvTcpServerStream.Close; rw [h]; cases s.m_client <;> rfl

theorem Close_of_live (s : UvTcpServerStream) (c : ConnId) (h : s.m_client = some c)
    (hw : s.m_writeCallback = true) :
    Close s = { s with m_pendingRequests := s.m_pendingRequests ++ [Task.close],
                       events := s.events ++ [StreamEvent.wakeSend] } := by
  unfold UvTcpServerStream.Close; rw [h, hw]; rfl

theorem WriteInternal_of_none (onOwner : Bool) (s : UvTcpServerStream) (data : List Byte)
    (h : s.m_client = none) : WriteInternal onOwner s data = s := by
  unfold UvTcpServerStream.WriteInternal; rw [h]

theorem WriteInternal_owner (s : UvTcpServerStream) (data : List Byte) (c : ConnId)
    (h : s.m_client = some c) :
    WriteInternal true s data = s.emit [StreamEvent.sockWrite data] := by
  unfold UvTcpServerStream.WriteInternal; rw [h]; rfl

theorem WriteInternal_other_noWake (s : UvTcpServerStream) (data : List Byte)
    (hw : s.m_writeCallback = false) : WriteInternal false s data = s := by
  unfold UvTcpServerStream.WriteInternal; rw [hw]; cases s.m_client <;> rfl

theorem WriteInternal_other (s : UvTcpServerStream) (data : List Byte) (c : ConnId)
    (h : s.m_client = some c) (hw : s.m_writeCallback = true) :
    WriteInternal false s data =
      { s with m_pendingRequests := s.m_pendingRequests ++ [Task.write data],
               events := s.events ++ [StreamEvent.wakeSend] } := by
  unfold UvTcpServerStream.WriteInternal; rw [h, hw]; rfl

theorem safe_Close (s : UvTcpServerStream) : Safe s (Close s) := by
  cases hc : s.m_client with
  | none => rw [Close_of_none s hc]; exact safe_refl s
  | some c =>
    cases hw : s.m_writeCallback with
    | false => rw [Close_of_noWake s hw]; exact safe_refl s
    | true =>
      rw [Close_of_live s c hc hw]
      exact safe_of_same rfl rfl (Or.inr rfl) rfl
        (by simp [tdEvents, isTeardown]) (by simp [cbBegins])

theorem safe_WriteInternal (onOwner : Bool) (s : UvTcpServerStream) (data : List Byte) :
    Safe s (WriteInternal onOwner s data) := by
  cases hc : s.m_client with
  | none => rw [WriteInternal_of_none onOwner s data hc]; exact safe_refl s
  | some c =>
    cases onOwner with
    | true =>
      rw [WriteInternal_owner s data c hc]
      exact safe_emit s _ (by simp [isTeardown]) (by simp)
    | false =>
      cases hw : s.m_writeCallback with
      | false => rw [WriteInternal_other_noWake s data hw]; exact safe_refl s
      | true =>
        rw [WriteInternal_other s data c hc hw]
        exact safe_of_same rfl rfl (Or.inr rfl) rfl
          (by simp [tdEvents, isTeardown]) (by simp [cbBegins])

theorem safe_Write (onOwner : Bool) (s : UvTcpServerStream) (data : List Byte) :
    Safe s (Write onOwner s data) := safe_WriteInternal onOwner s _

/-- Entering the close callback: it is cleared first and entered once. -/
theorem safe_enterCallback (s : UvTcpServerStream) (body : List Op)
    (h : s.m_closeCallback = some body) : Safe s (enterCallback s) where
  closing_mono := id
  client_mono := Or.inr rfl
  read_mono := Or.inl rfl
  closecb_mono := Or.inl rfl
  closing_frame := fun _ =>
    ⟨rfl, by simp [tdEvents, UvTcpServerStream.enterCallback, isTeardown]⟩
  td_inv := fun hi => by
    unfold TdInv at *
    simpa [tdEvents, UvTcpServerStream.enterCallback, isTeardown] using hi
  cb_inv := fun hi => by
    unfold CbInv at *
    simp only [cbBegins, h, Option.isNone_some] at hi
    simp [cbBegins, UvTcpServerStream.enterCallback, hi]

/-- The body of `CloseClient` behind its guard is safe when the drain it
contains is. -/
theorem safe_teardown (s s2 : UvTcpServerStream) (c : ConnId)
    (hc : s.m_client = some c) (hcl : s.m_closingClient = false)
    (h : Safe (beginTeardown s) s2) : Safe s (finishTeardown s.m_writeCallback s2) := by
  have hfr := h.closing_frame rfl
  have hev : tdEvents (finishTeardown s.m_writeCallback s2) = tdEvents s2 ++ teardownSeq := by
    cases s.m_writeCallback <;>
      simp [finishTeardown, tdEvents, UvTcpServerStream.emit, isTeardown, teardownSeq]
  have hcb : cbBegins (finishTeardown s.m_writeCallback s2) = cbBegins s2 := by
    cases s.m_writeCallback <;> simp [finishTeardown, cbBegins, UvTcpServerStream.emit]
  have hclose : (finishTeardown s.m_writeCallback s2).m_closeCallback = s2.m_closeCallback := by
    cases s.m_writeCallback <;> simp [finishTeardown, UvTcpServerStream.emit]
  have hread : (finishTeardown s.m_writeCallback s2).m_readCallback = s2.m_readCallback := by
    cases s.m_writeCallback <;> simp [finishTeardown, UvTcpServerStream.emit]
  have hflag : (finishTeardown s.m_writeCallback s2).m_closingClient = s2.m_closingClient := by
    cases s.m_writeCallback <;> simp [finishTeardown, UvTcpServerStream.emit]
  refine ⟨fun hh => ?_, Or.inl rfl, ?_, ?_, fun hh => ?_, fun hi => ?_, fun hi => ?_⟩
  · rw [hcl] at hh; exact absurd hh (by decide)
  · rw [hread]; exact h.read_mono
  · rw [hclose]; exact h.closecb_mono
  · rw [hcl] at hh; exact absurd hh (by decide)
  · unfold TdInv at *
    rw [hc] at hi
    simp only [Option.isNone_some] at hi
    rw [hev, hfr.2]
    have : tdEvents (beginTeardown s) = tdEvents s := rfl
    rw [this, hi]
    simp [finishTeardown]
  · have h2 : CbInv s2 := h.cb_inv hi
    unfold CbInv at *
    rw [hcb, hclose]; exact h2

theorem inner_refl (s : UvTcpServerStream) : Inner s s := ⟨safe_refl s, rfl⟩

theorem inner_trans {a b c : UvTcpServerStream} (h1 : Inner a b) (h2 : Inner b c) :
    Inner a c := ⟨safe_trans h1.1 h2.1, h2.2.trans h1.2⟩

theorem readsOf_finishTeardown (w : Bool) (s : UvTcpServerStream) :
    readsOf (finishTeardown w s) = readsOf s := by
  cases w <;> simp [finishTeardown, readsOf, UvTcpServerStream.emit, isRead]

theorem readsOf_Close (s : UvTcpServerStream) : readsOf (Close s) = readsOf s := by
  cases hc : s.m_client with
  | none => rw [Close_of_none s hc]
  | some c =>
    cases hw : s.m_writeCallback with
    | false => rw [Close_of_noWake s hw]
    | true => rw [Close_of_live s c hc hw]; simp [readsOf, isRead]

theorem readsOf_WriteInternal (onOwner : Bool) (s : UvTcpServerStream) (data : List Byte) :
    readsOf (WriteInternal onOwner s data) = readsOf s := by
  cases hc : s.m_client with
  | none => rw [WriteInternal_of_none onOwner s data hc]
  | some c =>
    cases onOwner with
    | true =>
      rw [WriteInternal_owner s data c hc]; simp [readsOf, UvTcpServerStream.emit, isRead]
    | false =>
      cases hw : s.m_writeCallback with
      | false => rw [WriteInternal_other_noWake s data hw]
      | true => rw [WriteInternal_other s data c hc hw]; simp [readsOf, isRead]

/-- Every function of the drain machinery is safe and silent towards the read
callback, whatever the fuel. -/
theorem inner_all : ∀ n : Nat,
    (∀ s s', CloseClient n s = some s' → Inner s s') ∧
    (∀ s s', HandlePendingWrites n s = some s' → Inner s s') ∧
    (∀ s s', drainLoop n s = some s' → Inner s s') ∧
    (∀ t s s', runTask n t s = some s' → Inner s s') ∧
    (∀ ops s s', runOps n ops s = some s' → Inner s s') ∧
    (∀ op s s', runOp n op s = some s' → Inner s s') := by
  intro n
  induction n with
  | zero =>
    refine ⟨?_, ?_, ?_, ?_, ?_, ?_⟩ <;> intros <;> simp_all [zero_fuel]
  | succ n ih =>
    obtain ⟨ihCC, ihHPW, ihDL, ihRT, ihROs, ihRO⟩ := ih
    refine ⟨?_, ?_, ?_, ?_, ?_, ?_⟩
    · -- CloseClient
      intro s s' h
      cases hc : s.m_client with
      | none =>
        rw [CloseClient_none n s hc] at h
        cases h; exact inner_refl s
      | some c =>
        cases hcl : s.m_closingClient with
        | true =>
          rw [CloseClient_closing n s hcl] at h
          cases h; exact inner_refl s
        | false =>
          rw [CloseClient_live n s c hc hcl] at h
          obtain ⟨s2, hh, rfl⟩ := Option.map_eq_some'.mp h
          have h2 := ihHPW _ _ hh
          exact ⟨safe_teardown s s2 c hc hcl h2.1,
            by rw [readsOf_finishTeardown, h2.2]; rfl⟩
    · -- HandlePendingWrites
      intro s s' h
      cases hc : s.m_client with
      | none =>
        rw [HandlePendingWrites_none n s hc] at h
        cases h; exact inner_refl s
      | some c =>
        rw [HandlePendingWrites_some n s c hc] at h
        exact ihDL _ _ h
    · -- drainLoop
      intro s s' h
      cases hq : s.m_pendingRequests with
      | nil =>
        rw [drainLoop_nil n s hq] at h
        cases h; exact inner_refl s
      | cons t q =>
        have hpop : Inner s (popped s q) := ⟨safe_popped s q, rfl⟩
        cases hc : s.m_client with
        | none =>
          rw [drainLoop_cons_none n s t q hq hc] at h
          exact inner_trans hpop (ihDL _ _ h)
        | some c =>
          rw [drainLoop_cons_some n s t q c hq hc] at h
          obtain ⟨s2, hr, hd⟩ := Option.bind_eq_some.mp h
          exact inner_trans hpop (inner_trans (ihRT _ _ _ hr) (ihDL _ _ hd))
    · -- runTask
      intro t s s' h
      cases t with
      | write data =>
        cases hc : s.m_client with
        | none =>
          rw [runTask_write_none n data s hc] at h
          cases h; exact inner_refl s
        | some c =>
          rw [runTask_write_some n data s c hc] at h
          cases h
          exact ⟨safe_emit s _ (by simp [isTeardown]) (by simp),
            by simp [readsOf, UvTcpServerStream.emit, isRead]⟩
      | callback body =>
        rw [runTask_callback] at h
        exact ihROs _ _ _ h
      | close =>
        cases hcc : CloseClient n s with
        | none => rw [runTask_close_fail n s hcc] at h; cases h
        | some s1 =>
          have h1 := ihCC _ _ hcc
          cases hcb : s1.m_closeCallback with
          | none =>
            rw [runTask_close_skip n s s1 hcc hcb] at h
            cases h
            exact inner_trans h1 ⟨safe_skipCallback s1,
              by simp [readsOf, UvTcpServerStream.skipCallback, UvTcpServerStream.emit, isRead]⟩
          | some body =>
            rw [runTask_close_call n s s1 body hcc hcb] at h
            obtain ⟨s4, hro, rfl⟩ := Option.map_eq_some'.mp h
            have h3 := ihROs _ _ _ hro
            refine inner_trans h1 (inner_trans ⟨safe_enterCallback s1 body hcb, ?_⟩
              (inner_trans h3 ⟨safe_leaveCallback s4, ?_⟩))
            · simp [readsOf, UvTcpServerStream.enterCallback, isRead]
            · simp [readsOf, UvTcpServerStream.leaveCallback, UvTcpServerStream.emit, isRead]
    · -- runOps
      intro ops s s' h
      cases ops with
      | nil => rw [runOps_nil] at h; cases h; exact inner_refl s
      | cons op ops =>
        rw [runOps_cons] at h
        obtain ⟨s1, hr, hd⟩ := Option.bind_eq_some.mp h
        exact inner_trans (ihRO _ _ _ hr) (ihROs _ _ _ hd)
    · -- runOp
      intro op s s' h
      cases op with
      | write data =>
        rw [runOp_write] at h; cases h
        exact ⟨safe_Write true s data, readsOf_WriteInternal _ _ _⟩
      | close =>
        rw [runOp_close] at h; cases h
        exact ⟨safe_Close s, readsOf_Close s⟩
      | closeClient =>
        rw [runOp_closeClient] at h
        exact ihCC _ _ h

/-! ## Stream: the fuel bound suffices -/

theorem queueWeight_append (q : List Task) (t : Task) :
    queueWeight (q ++ [t]) = queueWeight q + taskWeight t := by
  induction q with
  | nil => simp [queueWeight]
  | cons a q ih => simp [queueWeight, ih]; omega

theorem opWeight_pos (op : Op) : 1 ≤ opWeight op := by
  cases op <;> simp [opWeight]

theorem taskWeight_pos (t : Task) : 1 ≤ taskWeight t := by
  cases t <;> simp [taskWeight]

theorem potential_popped (s : UvTcpServerStream) (t : Task) (q : List Task)
    (h : s.m_pendingRequests = t :: q) :
    potential s = taskWeight t + potential (popped s q) := by
  simp [potential, popped, h, queueWeight]; omega

theorem potential_beginTeardown (s : UvTcpServerStream) :
    potential (beginTeardown s) = potential s := rfl

theorem potential_finishTeardown (w : Bool) (s : UvTcpServerStream) :
    potential (finishTeardown w s) = potential s := by
  cases w <;> rfl

theorem potential_emit (s : UvTcpServerStream) (es : List StreamEvent) :
    potential (s.emit es) = potential s := rfl

theorem potential_skipCallback (s : UvTcpServerStream) :
    potential (skipCallback s) = potential s := rfl

theorem potential_leaveCallback (s : UvTcpServerStream) :
    potential (leaveCallback s) = potential s := rfl

theorem potential_enterCallback (s : UvTcpServerStream) (body : List Op)
    (h : s.m_closeCallback = some body) :
    potential s = potential (enterCallback s) + opsWeight body := by
  simp [potential, enterCallback, h]

theorem potential_Close (s : UvTcpServerStream) : potential (Close s) ≤ potential s + 5 := by
  cases hc : s.m_client with
  | none => rw [Close_of_none s hc]; omega
  | some c =>
    cases hw : s.m_writeCallback with
    | false => rw [Close_of_noWake s hw]; omega
    | true =>
      rw [Close_of_live s c hc hw]
      simp [potential, queueWeight_append, taskWeight]; omega

theorem potential_Write_owner (s : UvTcpServerStream) (data : List Byte) :
    potential (Write true s data) = potential s := by
  unfold UvTcpServerStream.Write
  cases hc : s.m_client with
  | none => rw [WriteInternal_of_none true s _ hc]
  | some c => rw [WriteInternal_owner s _ c hc]; rfl

/-- With fuel above the potential of the stream, every function of the drain
machinery returns, and the potential does not grow beyond what the executed
work may have queued. -/
theorem fuel_all : ∀ n : Nat,
    (∀ s, potential s + 3 ≤ n →
      ∃ s', CloseClient n s = some s' ∧ potential s' ≤ potential s) ∧
    (∀ s, potential s + 2 ≤ n →
      ∃ s', HandlePendingWrites n s = some s' ∧ potential s' ≤ potential s) ∧
    (∀ s, potential s + 1 ≤ n →
      ∃ s', drainLoop n s = some s' ∧ potential s' ≤ potential s) ∧
    (∀ t s, potential s + taskWeight t ≤ n →
      ∃ s', runTask n t s = some s' ∧ potential s' + 1 ≤ potential s + taskWeight t) ∧
    (∀ ops s, potential s + opsWeight ops + 4 ≤ n →
      ∃ s', runOps n ops s = some s' ∧ potential s' ≤ potential s + opsWeight ops) ∧
    (∀ op s, potential s + 4 ≤ n →
      ∃ s', runOp n op s = some s' ∧ potential s' + 1 ≤ potential s + opWeight op) := by
  intro n
  induction n with
  | zero =>
    refine ⟨?_, ?_, ?_, ?_, ?_, ?_⟩
    · intro s h; omega
    · intro s h; omega
    · intro s h; omega
    · intro t s h; have := taskWeight_pos t; omega
    · intro ops s h; omega
    · intro op s h; omega
  | succ n ih =>
    obtain ⟨ihCC, ihHPW, ihDL, ihRT, ihROs, ihRO⟩ := ih
    refine ⟨?_, ?_, ?_, ?_, ?_, ?_⟩
    · -- CloseClient
      intro s hn
      cases hc : s.m_client with
      | none => exact ⟨s, CloseClient_none n s hc, le_refl _⟩
      | some c =>
        cases hcl : s.m_closingClient with
        | true => exact ⟨s, CloseClient_closing n s hcl, le_refl _⟩
        | false =>
          obtain ⟨s2, h2, hp⟩ := ihHPW (beginTeardown s)
            (by rw [potential_beginTeardown]; omega)
          refine ⟨finishTeardown s.m_writeCallback s2, ?_, ?_⟩
          · rw [CloseClient_live n s c hc hcl, h2]; rfl
          · rw [potential_finishTeardown]; rw [potential_beginTeardown] at hp; exact hp
    · -- HandlePendingWrites
      intro s hn
      cases hc : s.m_client with
      | none => exact ⟨s, HandlePendingWrites_none n s hc, le_refl _⟩
      | some c =>
        obtain ⟨s', h, hp⟩ := ihDL s (by omega)
        exact ⟨s', by rw [HandlePendingWrites_some n s c hc]; exact h, hp⟩
    · -- drainLoop
      intro s hn
      cases hq : s.m_pendingRequests with
      | nil => exact ⟨s, drainLoop_nil n s hq, le_refl _⟩
      | cons t q =>
        have hpot := potential_popped s t q hq
        have htw := taskWeight_pos t
        cases hc : s.m_client with
        | none =>
          obtain ⟨s', h, hp⟩ := ihDL (popped s q) (by omega)
          exact ⟨s', by rw [drainLoop_cons_none n s t q hq hc]; exact h, by omega⟩
        | some c =>
          obtain ⟨s2, h2, hp2⟩ := ihRT t (popped s q) (by omega)
          obtain ⟨s', h, hp⟩ := ihDL s2 (by omega)
          refine ⟨s', ?_, by omega⟩
          rw [drainLoop_cons_some n s t q c hq hc, h2]
          exact h
    · -- runTask
      intro t s hn
      cases t with
      | write data =>
        cases hc : s.m_client with
        | none => exact ⟨s, runTask_write_none n data s hc, by simp [taskWeight]⟩
        | some c =>
          exact ⟨_, runTask_write_some n data s c hc, by simp [taskWeight, potential_emit]⟩
      | callback body =>
        simp only [taskWeight] at hn
        obtain ⟨s', h, hp⟩ := ihROs body s (by omega)
        exact ⟨s', by rw [runTask_callback]; exact h, by simp only [taskWeight]; omega⟩
      | close =>
        simp only [taskWeight] at hn
        obtain ⟨s1, h1, hp1⟩ := ihCC s (by omega)
        cases hcb : s1.m_closeCallback with
        | none =>
          exact ⟨_, runTask_close_skip n s s1 h1 hcb,
            by rw [potential_skipCallback]; simp only [taskWeight]; omega⟩
        | some body =>
          have hpe := potential_enterCallback s1 body hcb
          obtain ⟨s4, h4, hp4⟩ := ihROs body (enterCallback s1) (by omega)
          refine ⟨leaveCallback s4, ?_, ?_⟩
          · rw [runTask_close_call n s s1 body h1 hcb, h4]; rfl
          · rw [potential_leaveCallback]; simp only [taskWeight]; omega
    · -- runOps
      intro ops s hn
      cases ops with
      | nil => exact ⟨s, runOps_nil n s, by simp [opsWeight]⟩
      | cons op ops =>
        simp only [opsWeight] at hn ⊢
        have hw := opWeight_pos op
        obtain ⟨s1, h1, hp1⟩ := ihRO op s (by omega)
        obtain ⟨s', h, hp⟩ := ihROs ops s1 (by omega)
        refine ⟨s', ?_, by omega⟩
        rw [runOps_cons, h1]
        exact h
    · -- runOp
      intro op s hn
      cases op with
      | write data =>
        exact ⟨_, runOp_write n data s, by rw [potential_Write_owner]; simp [opWeight]⟩
      | close =>
        have := potential_Close s
        exact ⟨_, runOp_close n s, by simp only [opWeight]; omega⟩
      | closeClient =>
        obtain ⟨s', h, hp⟩ := ihCC s (by omega)
        exact ⟨s', by rw [runOp_closeClient]; exact h, by simp only [opWeight]; omega⟩

/-! ## Stream: the entry points -/

theorem HandleRead_pos_none (fuel : Nat) (nread : Int) (buf : List Byte)
    (s : UvTcpServerStream) (hn : 0 < nread) (h : s.m_readCallback = none) :
    HandleRead fuel nread buf s = some s := by
  unfold HandleRead
  simp only [gt_iff_lt, hn, if_true, h]

theorem HandleRead_pos_some (fuel : Nat) (nread : Int) (buf : List Byte)
    (s : UvTcpServerStream) (rc : List Byte → List Op) (hn : 0 < nread)
    (h : s.m_readCallback = some rc) :
    HandleRead fuel nread buf s =
      runOps fuel (rc (buf.take nread.toNat))
        (s.emit [StreamEvent.readCallback (buf.take nread.toNat)]) := by
  unfold HandleRead
  simp only [gt_iff_lt, hn, if_true, h]

theorem HandleRead_nonpos (fuel : Nat) (nread : Int) (buf : List Byte)
    (s : UvTcpServerStream) (hn : nread ≤ 0) :
    HandleRead fuel nread buf s = some (Close s) := by
  unfold HandleRead
  simp only [gt_iff_lt, not_lt.mpr hn, if_false, hn, if_true]

theorem ScheduleCallback_owner (fuel : Nat) (callback : List Op) (s : UvTcpServerStream) :
    ScheduleCallback fuel true callback s = runOps fuel callback s := by
  unfold ScheduleCallback; simp

theorem ScheduleCallback_other (fuel : Nat) (callback : List Op) (s : UvTcpServerStream)
    (hw : s.m_writeCallback = true) :
    ScheduleCallback fuel false callback s =
      some { s with m_pendingRequests := s.m_pendingRequests ++ [Task.callback callback],
                    events := s.events ++ [StreamEvent.wakeSend] } := by
  unfold ScheduleCallback; simp [hw]

theorem ScheduleCallback_other_noWake (fuel : Nat) (callback : List Op)
    (s : UvTcpServerStream) (hw : s.m_writeCallback = false) :
    ScheduleCallback fuel false callback s = some s := by
  unfold ScheduleCallback; simp [hw]

/-- Every entry point is safe, whatever the fuel. -/
theorem exec_safe (fuel : Nat) (call : Call) (s s' : UvTcpServerStream)
    (h : exec fuel call s = some s') : Safe s s' := by
  cases call with
  | write onOwner data =>
    simp only [exec, Option.some.injEq] at h; subst h
    exact safe_Write onOwner s data
  | scheduleCallback onOwner callback =>
    simp only [exec] at h
    cases onOwner with
    | true =>
      rw [ScheduleCallback_owner] at h
      exact ((inner_all fuel).2.2.2.2.1 _ _ _ h).1
    | false =>
      cases hw : s.m_writeCallback with
      | false => rw [ScheduleCallback_other_noWake fuel callback s hw] at h; cases h; exact safe_refl s
      | true =>
        rw [ScheduleCallback_other fuel callback s hw] at h; cases h
        exact safe_of_same rfl rfl (Or.inr rfl) rfl
          (by simp [tdEvents, isTeardown]) (by simp [cbBegins])
  | close =>
    simp only [exec, Option.some.injEq] at h; subst h
    exact safe_Close s
  | handleRead nread buf =>
    simp only [exec] at h
    by_cases hn : 0 < nread
    · cases hr : s.m_readCallback with
      | none => rw [HandleRead_pos_none fuel nread buf s hn hr] at h; cases h; exact safe_refl s
      | some rc =>
        rw [HandleRead_pos_some fuel nread buf s rc hn hr] at h
        exact safe_trans (safe_emit s _ (by simp [isTeardown]) (by simp))
          ((inner_all fuel).2.2.2.2.1 _ _ _ h).1
    · rw [HandleRead_nonpos fuel nread buf s (not_lt.mp hn)] at h; cases h
      exact safe_Close s
  | handlePendingWrites =>
    simp only [exec] at h
    exact ((inner_all fuel).2.1 _ _ h).1
  | closeClient =>
    simp only [exec] at h
    exact ((inner_all fuel).1 _ _ h).1
  | getPeerAddress =>
    simp only [exec, Option.some.injEq] at h; subst h
    exact safe_refl s

theorem execAll_safe (fuel : Nat) : ∀ (calls : List Call) (s s' : UvTcpServerStream),
    execAll fuel calls s = some s' → Safe s s' := by
  intro calls
  induction calls with
  | nil => intro s s' h; simp only [execAll, Option.some.injEq] at h; subst h; exact safe_refl s
  | cons call rest ih =>
    intro s s' h
    simp only [execAll] at h
    cases he : exec fuel call s with
    | none => rw [he] at h; cases h
    | some s1 =>
      rw [he] at h
      exact safe_trans (exec_safe fuel call s s1 he) (ih s1 s' h)

theorem potential_WriteInternal_other (s : UvTcpServerStream) (data : List Byte) :
    potential (WriteInternal false s data) ≤ potential s + 1 := by
  cases hc : s.m_client with
  | none => rw [WriteInternal_of_none false s _ hc]; omega
  | some c =>
    cases hw : s.m_writeCallback with
    | false => rw [WriteInternal_other_noWake s _ hw]; omega
    | true =>
      rw [WriteInternal_other s _ c hc hw]
      simp [potential, queueWeight_append, taskWeight]; omega

/-- Every entry point returns when given `fuelBound`, and adds at most its
cost to the potential. -/
theorem exec_total (fuel : Nat) (call : Call) (s : UvTcpServerStream)
    (hf : fuelBound call s ≤ fuel) :
    ∃ s', exec fuel call s = some s' ∧ potential s' ≤ potential s + callCost s call := by
  cases call with
  | write onOwner data =>
    refine ⟨Write onOwner s data, rfl, ?_⟩
    cases onOwner with
    | true => rw [potential_Write_owner]; omega
    | false =>
      have := potential_WriteInternal_other s (data.take data.length)
      simp only [callCost]; exact this
  | scheduleCallback onOwner callback =>
    simp only [fuelBound] at hf
    simp only [exec, callCost]
    cases onOwner with
    | true =>
      rw [ScheduleCallback_owner]
      obtain ⟨s', h, hp⟩ := (fuel_all fuel).2.2.2.2.1 callback s (by omega)
      exact ⟨s', h, by omega⟩
    | false =>
      cases hw : s.m_writeCallback with
      | false => exact ⟨s, ScheduleCallback_other_noWake fuel callback s hw, by omega⟩
      | true =>
        refine ⟨_, ScheduleCallback_other fuel callback s hw, ?_⟩
        simp [potential, queueWeight_append, taskWeight]; omega
  | close =>
    exact ⟨Close s, rfl, potential_Close s⟩
  | handleRead nread buf =>
    simp only [fuelBound] at hf
    simp only [exec, callCost]
    by_cases hn : 0 < nread
    · cases hr : s.m_readCallback with
      | none => exact ⟨s, HandleRead_pos_none fuel nread buf s hn hr, by omega⟩
      | some rc =>
        have hrc : readCost s nread buf = opsWeight (rc (buf.take nread.toNat)) := by
          simp only [readCost, hr]
        rw [HandleRead_pos_some fuel nread buf s rc hn hr]
        obtain ⟨s', h, hp⟩ := (fuel_all fuel).2.2.2.2.1 (rc (buf.take nread.toNat))
          (s.emit [StreamEvent.readCallback (buf.take nread.toNat)])
          (by rw [potential_emit]; omega)
        rw [potential_emit] at hp
        exact ⟨s', h, by omega⟩
    · refine ⟨Close s, HandleRead_nonpos fuel nread buf s (not_lt.mp hn), ?_⟩
      have := potential_Close s
      omega
  | handlePendingWrites =>
    simp only [fuelBound] at hf
    obtain ⟨s', h, hp⟩ := (fuel_all fuel).2.1 s (by omega)
    exact ⟨s', h, by simp only [callCost]; omega⟩
  | closeClient =>
    simp only [fuelBound] at hf
    obtain ⟨s', h, hp⟩ := (fuel_all fuel).1 s (by omega)
    exact ⟨s', h, by simp only [callCost]; omega⟩
  | getPeerAddress =>
    exact ⟨s, rfl, by simp only [callCost]; omega⟩

theorem fuelBound_le (call : Call) (s : UvTcpServerStream) :
    fuelBound call s ≤ potential s + callCost s call + 4 := by
  cases call <;> simp only [fuelBound, callCost] <;> omega

theorem callCost_mono (s s1 : UvTcpServerStream) (call : Call)
    (h : s1.m_readCallback = none ∨ s1.m_readCallback = s.m_readCallback) :
    callCost s1 call ≤ callCost s call := by
  cases call <;> simp only [callCost, le_refl]
  rcases h with h | h
  · simp [readCost, h]
  · simp [readCost, h]

theorem seqCost_mono (s s1 : UvTcpServerStream) (calls : List Call)
    (h : s1.m_readCallback = none ∨ s1.m_readCallback = s.m_readCallback) :
    seqCost s1 calls ≤ seqCost s calls := by
  induction calls with
  | nil => exact le_refl _
  | cons call rest ih =>
    simp only [seqCost]
    have := callCost_mono s s1 call h
    omega

/-- A sequence of entry points returns when given the potential plus its cost
plus four. -/
theorem execAll_total (fuel : Nat) : ∀ (calls : List Call) (s : UvTcpServerStream),
    potential s + seqCost s calls + 4 ≤ fuel →
    ∃ s', execAll fuel calls s = some s' ∧ potential s' ≤ potential s + seqCost s calls := by
  intro calls
  induction calls with
  | nil => intro s _; exact ⟨s, rfl, by simp [seqCost]⟩
  | cons call rest ih =>
    intro s hf
    simp only [seqCost] at hf ⊢
    have hb := fuelBound_le call s
    obtain ⟨s1, h1, hp1⟩ := exec_total fuel call s (by omega)
    have hm := seqCost_mono s s1 rest (exec_safe fuel call s s1 h1).read_mono
    obtain ⟨s', h, hp⟩ := ih s1 (by omega)
    refine ⟨s', ?_, by omega⟩
    simp only [execAll, h1]
    exact h

/-! ## Stream: a queued close closure is run by the drain -/

theorem closed_then_safe {a b c : UvTcpServerStream} (h : Closed a b) (hs : Safe b c) :
    Closed a c := by
  obtain ⟨h1, h2, h3⟩ := h
  refine ⟨?_, ?_, fun hc => ?_⟩
  · rcases hs.read_mono with h | h
    · exact h
    · rw [h]; exact h1
  · rcases hs.closecb_mono with h | h
    · exact h
    · rw [h]; exact h2
  · rcases hs.client_mono with h | h
    · exact h
    · rw [h]; exact h3 hc

theorem closed_of_flag {a a' b : UvTcpServerStream} (h : Closed a' b)
    (he : a'.m_closingClient = a.m_closingClient) : Closed a b :=
  ⟨h.1, h.2.1, fun hc => h.2.2 (by rw [he]; exact hc)⟩

theorem stillPending_refl (s : UvTcpServerStream) (h : Pending s) : StillPending s s :=
  ⟨h, rfl⟩

/-- After a step that keeps the closure queued, what a further step achieves
carries over. -/
theorem stillPending_then {a b c : UvTcpServerStream} (h : StillPending a b)
    (h2 : StillPending b c ∨ Closed b c) : StillPending a c ∨ Closed a c := by
  rcases h2 with h2 | h2
  · exact Or.inl ⟨h2.1, h2.2.trans h.2⟩
  · exact Or.inr (closed_of_flag h2 h.2)

/-- The close closure clears both callbacks, and releases the socket when it
is the one that performs the teardown. -/
theorem runTask_close_closed (n : Nat) (s s' : UvTcpServerStream) (c : ConnId)
    (hc : s.m_client = some c) (h : runTask n Task.close s = some s') : Closed s s' := by
  cases n with
  | zero => rw [(zero_fuel s).2.2.2.1 Task.close] at h; cases h
  | succ n =>
    cases hcc : CloseClient n s with
    | none => rw [runTask_close_fail n s hcc] at h; cases h
    | some s1 =>
      have hrel : s.m_closingClient = false → s1.m_client = none := by
        intro hcl
        cases n with
        | zero => rw [(zero_fuel s).1] at hcc; cases hcc
        | succ m =>
          rw [CloseClient_live m s c hc hcl] at hcc
          obtain ⟨s2, _, rfl⟩ := Option.map_eq_some'.mp hcc
          rfl
      cases hcb : s1.m_closeCallback with
      | none =>
        rw [runTask_close_skip n s s1 hcc hcb] at h
        cases h
        exact ⟨rfl, hcb, hrel⟩
      | some body =>
        rw [runTask_close_call n s s1 body hcc hcb] at h
        obtain ⟨s4, hro, rfl⟩ := Option.map_eq_some'.mp h
        have h3 := ((inner_all n).2.2.2.2.1 _ _ _ hro).1
        have hbase : Closed s (enterCallback s1) := ⟨rfl, rfl, hrel⟩
        exact closed_then_safe (closed_then_safe hbase h3) (safe_leaveCallback s4)

theorem pending_Close (s : UvTcpServerStream) (h : Pending s) : StillPending s (Close s) := by
  obtain ⟨⟨c, hc⟩, hq⟩ := h
  cases hw : s.m_writeCallback with
  | false => rw [Close_of_noWake s hw]; exact ⟨⟨⟨c, hc⟩, hq⟩, rfl⟩
  | true =>
    rw [Close_of_live s c hc hw]
    exact ⟨⟨⟨c, hc⟩, List.mem_append_left _ hq⟩, rfl⟩

theorem pending_Write (onOwner : Bool) (s : UvTcpServerStream) (data : List Byte)
    (h : Pending s) : StillPending s (Write onOwner s data) := by
  obtain ⟨⟨c, hc⟩, hq⟩ := h
  unfold UvTcpServerStream.Write
  cases onOwner with
  | true => rw [WriteInternal_owner s _ c hc]; exact ⟨⟨⟨c, hc⟩, hq⟩, rfl⟩
  | false =>
    cases hw : s.m_writeCallback with
    | false => rw [WriteInternal_other_noWake s _ hw]; exact ⟨⟨⟨c, hc⟩, hq⟩, rfl⟩
    | true =>
      rw [WriteInternal_other s _ c hc hw]
      exact ⟨⟨⟨c, hc⟩, List.mem_append_left _ hq⟩, rfl⟩

/-- While a close closure is queued on a live stream, every step either keeps
it queued or has run it; a drain always runs it. -/
theorem pending_all : ∀ n : Nat,
    (∀ s s', CloseClient n s = some s' → Pending s → StillPending s s' ∨ Closed s s') ∧
    (∀ s s', HandlePendingWrites n s = some s' → Pending s → Closed s s') ∧
    (∀ s s', drainLoop n s = some s' → Pending s → Closed s s') ∧
    (∀ t s s', runTask n t s = some s' → Pending s → StillPending s s' ∨ Closed s s') ∧
    (∀ ops s s', runOps n ops s = some s' → Pending s → StillPending s s' ∨ Closed s s') ∧
    (∀ op s s', runOp n op s = some s' → Pending s → StillPending s s' ∨ Closed s s') := by
  intro n
  induction n with
  | zero =>
    refine ⟨?_, ?_, ?_, ?_, ?_, ?_⟩ <;> intros <;> simp_all [zero_fuel]
  | succ n ih =>
    obtain ⟨ihCC, ihHPW, ihDL, ihRT, ihROs, ihRO⟩ := ih
    refine ⟨?_, ?_, ?_, ?_, ?_, ?_⟩
    · -- CloseClient
      intro s s' h hp
      obtain ⟨⟨c, hc⟩, hq⟩ := hp
      cases hcl : s.m_closingClient with
      | true =>
        rw [CloseClient_closing n s hcl] at h
        cases h; exact Or.inl (stillPending_refl s ⟨⟨c, hc⟩, hq⟩)
      | false =>
        rw [CloseClient_live n s c hc hcl] at h
        obtain ⟨s2, hh, rfl⟩ := Option.map_eq_some'.mp h
        have h2 := ihHPW _ _ hh ⟨⟨c, hc⟩, hq⟩
        refine Or.inr ⟨?_, ?_, fun _ => rfl⟩
        · cases s.m_writeCallback <;> exact h2.1
        · cases s.m_writeCallback <;> exact h2.2.1
    · -- HandlePendingWrites
      intro s s' h hp
      obtain ⟨c, hc⟩ := hp.1
      rw [HandlePendingWrites_some n s c hc] at h
      exact ihDL _ _ h hp
    · -- drainLoop
      intro s s' h hp
      obtain ⟨⟨c, hc⟩, hq⟩ := hp
      cases hqq : s.m_pendingRequests with
      | nil => rw [hqq] at hq; cases hq
      | cons t q =>
        rw [drainLoop_cons_some n s t q c hqq hc] at h
        obtain ⟨s2, hr, hd⟩ := Option.bind_eq_some.mp h
        have hsafe := ((inner_all n).2.2.1 _ _ hd).1
        by_cases ht : t = Task.close
        · subst ht
          have := runTask_close_closed n (popped s q) s2 c hc hr
          exact closed_of_flag (closed_then_safe this hsafe) rfl
        · have hq' : Task.close ∈ q := by
            rw [hqq] at hq
            rcases List.mem_cons.mp hq with h0 | h0
            · exact absurd h0.symm ht
            · exact h0
          have hp1 : Pending (popped s q) := ⟨⟨c, hc⟩, hq'⟩
          rcases ihRT t _ _ hr hp1 with h2 | h2
          · exact closed_of_flag (closed_of_flag (ihDL _ _ hd h2.1) h2.2) rfl
          · exact closed_of_flag (closed_then_safe h2 hsafe) rfl
    · -- runTask
      intro t s s' h hp
      obtain ⟨⟨c, hc⟩, hq⟩ := hp
      cases t with
      | write data =>
        rw [runTask_write_some n data s c hc] at h
        cases h
        exact Or.inl ⟨⟨⟨c, hc⟩, hq⟩, rfl⟩
      | callback body =>
        rw [runTask_callback] at h
        exact ihROs _ _ _ h ⟨⟨c, hc⟩, hq⟩
      | close => exact Or.inr (runTask_close_closed (n + 1) s s' c hc h)
    · -- runOps
      intro ops s s' h hp
      cases ops with
      | nil => rw [runOps_nil] at h; cases h; exact Or.inl (stillPending_refl s hp)
      | cons op ops =>
        rw [runOps_cons] at h
        obtain ⟨s1, hr, hd⟩ := Option.bind_eq_some.mp h
        rcases ihRO _ _ _ hr hp with h1 | h1
        · exact stillPending_then h1 (ihROs _ _ _ hd h1.1)
        · exact Or.inr (closed_then_safe h1 ((inner_all n).2.2.2.2.1 _ _ _ hd).1)
    · -- runOp
      intro op s s' h hp
      cases op with
      | write data =>
        rw [runOp_write] at h; cases h
        exact Or.inl (pending_Write true s data hp)
      | close =>
        rw [runOp_close] at h; cases h
        exact Or.inl (pending_Close s hp)
      | closeClient =>
        rw [runOp_closeClient] at h
        exact ihCC _ _ h hp

/-! ## Stream: direct computations -/

theorem execAll_append (fuel : Nat) : ∀ (xs ys : List Call) (s : UvTcpServerStream),
    execAll fuel (xs ++ ys) s = (execAll fuel xs s).bind (execAll fuel ys) := by
  intro xs
  induction xs with
  | nil => intro ys s; rfl
  | cons x xs ih =>
    intro ys s
    simp only [List.cons_append, execAll]
    cases exec fuel x s with
    | none => rfl
    | some s1 => exact ih ys s1

theorem opsLength_le_weight (ops : List Op) : ops.length ≤ opsWeight ops := by
  induction ops with
  | nil => exact le_refl _
  | cons op ops ih =>
    have := opWeight_pos op
    simp only [List.length_cons, opsWeight]; omega

/-- Once the socket is released, a callback body changes nothing. -/
theorem runOps_released : ∀ (ops : List Op) (n : Nat) (s : UvTcpServerStream),
    s.m_client = none → ops.length + 2 ≤ n → runOps n ops s = some s := by
  intro ops
  induction ops with
  | nil =>
    intro n s _ hn
    obtain ⟨m, rfl⟩ : ∃ m, n = m + 1 := ⟨n - 1, by omega⟩
    exact runOps_nil m s
  | cons op ops ih =>
    intro n s hc hn
    simp only [List.length_cons] at hn
    obtain ⟨m, rfl⟩ : ∃ m, n = m + 2 := ⟨n - 2, by omega⟩
    rw [runOps_cons]
    have h1 : runOp (m + 1) op s = some s := by
      cases op with
      | write data =>
        rw [runOp_write]; unfold UvTcpServerStream.Write
        rw [WriteInternal_of_none true s _ hc]
      | close => rw [runOp_close, Close_of_none s hc]
      | closeClient =>
        obtain ⟨k, rfl⟩ : ∃ k, m = k + 1 := ⟨m - 1, by omega⟩
        rw [runOp_closeClient, CloseClient_none k s hc]
    rw [h1]
    exact ih (m + 1) s hc (by omega)

/-- Deferred writes pushed off the owning thread land on the queue in call
order, one wake-up each. -/
theorem execAll_writes_other (fuel : Nat) : ∀ (bs : List (List Byte)) (s : UvTcpServerStream)
    (c : ConnId), s.m_client = some c → s.m_writeCallback = true →
    execAll fuel (bs.map (Call.write false)) s =
      some { s with m_pendingRequests := s.m_pendingRequests ++ bs.map Task.write,
                    events := s.events ++ List.replicate bs.length StreamEvent.wakeSend } := by
  intro bs
  induction bs with
  | nil => intro s c _ _; simp [execAll]
  | cons b bs ih =>
    intro s c hc hw
    simp only [List.map_cons, execAll, exec]
    unfold UvTcpServerStream.Write
    rw [List.take_length, WriteInternal_other s b c hc hw]
    have hc' : ({ s with m_pendingRequests := s.m_pendingRequests ++ [Task.write b],
                         events := s.events ++ [StreamEvent.wakeSend] } :
        UvTcpServerStream).m_client = some c := hc
    have hw' : ({ s with m_pendingRequests := s.m_pendingRequests ++ [Task.write b],
                         events := s.events ++ [StreamEvent.wakeSend] } :
        UvTcpServerStream).m_writeCallback = true := hw
    rw [ih _ c hc' hw']
    simp [List.replicate_succ]

/-- The drain executes a leading run of deferred writes against the socket, in
queue order. -/
theorem drainLoop_writes : ∀ (bs : List (List Byte)) (rest : List Task) (n : Nat)
    (s : UvTcpServerStream) (c : ConnId),
    s.m_client = some c → s.m_pendingRequests = bs.map Task.write ++ rest → 1 ≤ n →
    drainLoop (n + bs.length) s =
      drainLoop n { s with m_pendingRequests := rest,
                           events := s.events ++ bs.map StreamEvent.sockWrite } := by
  intro bs
  induction bs with
  | nil =>
    intro rest n s c _ hq _
    simp only [List.map_nil, List.nil_append] at hq
    simp only [List.length_nil, Nat.add_zero, List.map_nil, List.append_nil]
    rw [← hq]
  | cons b bs ih =>
    intro rest n s c hc hq hn
    simp only [List.map_cons, List.cons_append] at hq
    simp only [List.length_cons]
    rw [← Nat.add_assoc, drainLoop_cons_some (n + bs.length) s _ _ c hq hc]
    obtain ⟨m, hm⟩ : ∃ m, n + bs.length = m + 1 := ⟨n + bs.length - 1, by omega⟩
    rw [hm, runTask_write_some m b (popped s (List.map Task.write bs ++ rest)) c hc,
      Option.some_bind, ← hm]
    have hc' : ((popped s (List.map Task.write bs ++ rest)).emit
        [StreamEvent.sockWrite b]).m_client = some c := hc
    rw [ih rest n _ c hc' rfl hn]
    simp [popped, UvTcpServerStream.emit]

/-- The close closure on a live stream whose queue it has just left empty:
the teardown runs, then the close callback (if any), then the removal. -/
theorem runTask_close_live (n : Nat) (s : UvTcpServerStream) (c : ConnId)
    (hc : s.m_client = some c) (hcl : s.m_closingClient = false)
    (hq : s.m_pendingRequests = []) (hn : potential s + 5 ≤ n) :
    runTask n Task.close s =
      some (match s.m_closeCallback with
        | none => skipCallback (finishTeardown s.m_writeCallback (beginTeardown s))
        | some _ =>
          leaveCallback (enterCallback (finishTeardown s.m_writeCallback (beginTeardown s)))) := by
  obtain ⟨m, rfl⟩ : ∃ m, n = m + 4 := ⟨n - 4, by omega⟩
  have hcc : CloseClient (m + 3) s
      = some (finishTeardown s.m_writeCallback (beginTeardown s)) := by
    rw [CloseClient_live (m + 2) s c hc hcl,
      HandlePendingWrites_some (m + 1) (beginTeardown s) c hc,
      drainLoop_nil m (beginTeardown s) hq]
    rfl
  have hcb : (finishTeardown s.m_writeCallback (beginTeardown s)).m_closeCallback
      = s.m_closeCallback := by
    cases s.m_writeCallback <;> rfl
  cases hb : s.m_closeCallback with
  | none =>
    rw [runTask_close_skip (m + 3) s _ hcc (hcb.trans hb)]
  | some body =>
    rw [runTask_close_call (m + 3) s _ body hcc (hcb.trans hb)]
    have hpot : opsWeight body ≤ potential s := by
      simp [potential, hb]
    have hlen := opsLength_le_weight body
    rw [runOps_released body (m + 3) _ rfl (by omega)]
    rfl

/-- C5: on a live stream with an empty queue, deferred writes `b1..bk` pushed
off the owning thread, followed by a `Close()` request, are all executed
against the socket by the drain, in the order they were queued, and only then
is the socket stopped, closed and released by the close closure. -/
theorem C5_close_after_queued_writes (s : UvTcpServerStream) (c : ConnId)
    (bs : List (List Byte)) (fuel : Nat)
    (hc : s.m_client = some c) (hcl : s.m_closingClient = false)
    (hw : s.m_writeCallback = true) (hq : s.m_pendingRequests = [])
    (hf : bs.length + potential s + 8 ≤ fuel) :
    ∃ s', execAll fuel (bs.map (Call.write false) ++ [Call.close, Call.handlePendingWrites]) s
        = some s' ∧
      s'.events = s.events ++ List.replicate (bs.length + 1) StreamEvent.wakeSend ++
        bs.map StreamEvent.sockWrite ++
        [StreamEvent.wakeClear, StreamEvent.wakeClose, StreamEvent.sockClear,
         StreamEvent.sockStop, StreamEvent.sockClose, StreamEvent.sockRelease] ++
        closeTail s.m_closeCallback ∧
      s'.m_client = none ∧ s'.m_pendingRequests = [] := by
  rw [execAll_append, execAll_writes_other fuel bs s c hc hw, Option.some_bind]
  obtain ⟨n, hn⟩ : ∃ n, fuel = (n + 2 + bs.length) + 1 := ⟨fuel - bs.length - 3, by omega⟩
  subst hn
  let s1 : UvTcpServerStream :=
    { s with m_pendingRequests := s.m_pendingRequests ++ bs.map Task.write,
             events := s.events ++ List.replicate bs.length StreamEvent.wakeSend }
  let s2 : UvTcpServerStream :=
    { s1 with m_pendingRequests := s1.m_pendingRequests ++ [Task.close],
              events := s1.events ++ [StreamEvent.wakeSend] }
  let s3 : UvTcpServerStream :=
    { s2 with m_pendingRequests := [Task.close],
              events := s2.events ++ bs.map StreamEvent.sockWrite }
  have h2 : Close s1 = s2 := Close_of_live s1 c hc hw
  have h3 : HandlePendingWrites (n + 2 + bs.length + 1) s2 = drainLoop (n + 2) s3 := by
    rw [HandlePendingWrites_some _ s2 c hc]
    exact drainLoop_writes bs [Task.close] (n + 2) s2 c hc (by simp [s2, s1, hq]) (by omega)
  have hp4 : potential (popped s3 []) = potential s := by
    simp [potential, popped, s3, s2, s1, queueWeight, hq]
  have h4 := runTask_close_live (n + 1) (popped s3 []) c hc hcl rfl (by rw [hp4]; omega)
  have h5 : drainLoop (n + 2) s3 = (runTask (n + 1) Task.close (popped s3 [])).bind
      (drainLoop (n + 1)) := drainLoop_cons_some (n + 1) s3 Task.close [] c rfl hc
  change ∃ s', (match exec (n + 2 + bs.length + 1) Call.close s1 with
      | none => none
      | some t => execAll (n + 2 + bs.length + 1) [Call.handlePendingWrites] t) = some s' ∧ _
  simp only [exec, execAll, h2, h3, h5, h4, Option.some_bind]
  have hw3 : (popped s3 []).m_writeCallback = true := hw
  have hcb3 : (popped s3 []).m_closeCallback = s.m_closeCallback := rfl
  rw [hw3, hcb3]
  cases hcb : s.m_closeCallback with
  | none =>
    refine ⟨_, by simp only; rw [drainLoop_nil n _ rfl], ?_, rfl, rfl⟩
    simp [skipCallback, finishTeardown, beginTeardown, UvTcpServerStream.emit, closeTail,
      List.replicate_succ', popped, s3, s2, s1]
  | some body =>
    refine ⟨_, by simp only; rw [drainLoop_nil n _ rfl], ?_, rfl, rfl⟩
    simp [leaveCallback, enterCallback, finishTeardown, beginTeardown,
      UvTcpServerStream.emit, closeTail, List.replicate_succ', popped, s3, s2, s1]

/-- Witness for C5: two deferred writes, then `Close()`, then the drain. -/
theorem C5_close_after_queued_writes_witness :
    ∃ s', execAll 20 ([[1], [2, 3]].map (Call.write false) ++
          [Call.close, Call.handlePendingWrites]) (Accept 1 none (some [Op.close])) = some s' ∧
      s'.events = [StreamEvent.wakeSend, StreamEvent.wakeSend, StreamEvent.wakeSend,
        StreamEvent.sockWrite [1], StreamEvent.sockWrite [2, 3],
        StreamEvent.wakeClear, StreamEvent.wakeClose, StreamEvent.sockClear,
        StreamEvent.sockStop, StreamEvent.sockClose, StreamEvent.sockRelease,
        StreamEvent.closeCallbackBegin, StreamEvent.closeCallbackEnd,
        StreamEvent.removeStream] := by
  obtain ⟨s', h1, h2, _, _⟩ := C5_close_after_queued_writes
    (Accept 1 none (some [Op.close])) 1 [[1], [2, 3]] 20 rfl rfl rfl rfl (by decide)
  exact ⟨s', h1, by rw [h2]; rfl⟩

/-! ## C8: writes on the owning thread -/

theorem emit_emit (s : UvTcpServerStream) (xs ys : List StreamEvent) :
    (s.emit xs).emit ys = s.emit (xs ++ ys) := by
  simp [UvTcpServerStream.emit, List.append_assoc]

theorem emit_nil (s : UvTcpServerStream) : s.emit [] = s := by
  simp [UvTcpServerStream.emit]

/-- C8: on a stream that holds its socket, buffers `b1..bn` passed to `Write`
on the owning thread are written to the socket as exactly `b1..bn`, byte for
byte and in call order, and the deferred queue is left as it was. -/
theorem C8_owner_writes_in_order (bs : List (List Byte)) (fuel : Nat) :
    ∀ (s : UvTcpServerStream) (c : ConnId), s.m_client = some c →
      execAll fuel (bs.map (Call.write true)) s
          = some (s.emit (bs.map StreamEvent.sockWrite)) ∧
      (s.emit (bs.map StreamEvent.sockWrite)).m_pendingRequests = s.m_pendingRequests ∧
      (s.emit (bs.map StreamEvent.sockWrite)).events
          = s.events ++ bs.map StreamEvent.sockWrite := by
  induction bs with
  | nil =>
    intro s c _
    refine ⟨?_, rfl, rfl⟩
    simp [execAll, emit_nil]
  | cons b bs ih =>
    intro s c hc
    refine ⟨?_, rfl, rfl⟩
    simp only [List.map_cons, execAll, exec]
    unfold UvTcpServerStream.Write
    rw [List.take_length, WriteInternal_owner s b c hc]
    have hc' : (s.emit [StreamEvent.sockWrite b]).m_client = some c := hc
    rw [(ih (s.emit [StreamEvent.sockWrite b]) c hc').1, emit_emit]
    rfl

/-- Witness for C8: three buffers written on the owning thread. -/
theorem C8_owner_writes_in_order_witness :
    execAll 0 ([[1, 2], [], [3]].map (Call.write true)) (Accept 4 none none)
      = some ((Accept 4 none none).emit
          [StreamEvent.sockWrite [1, 2], StreamEvent.sockWrite [], StreamEvent.sockWrite [3]]) :=
  (C8_owner_writes_in_order [[1, 2], [], [3]] 0 (Accept 4 none none) 4 rfl).1

/-! ## C7: `HandleRead` -/

/-- C7: for `nread > 0`, `HandleRead` calls the read callback, if one is set,
exactly once with the first `nread` bytes of the buffer, and does nothing else
of its own (no close is requested: what follows is the body of the callback);
with no read callback set it does nothing.  For `nread ≤ 0` it calls no read
callback and calls `Close()`. -/
theorem C7_handleRead_dispatch (s : UvTcpServerStream) (nread : Int) (buf : List Byte) :
    (0 < nread →
      (s.m_readCallback = none → ∀ fuel, HandleRead fuel nread buf s = some s) ∧
      (∀ rc, s.m_readCallback = some rc →
        (∀ fuel, HandleRead fuel nread buf s =
          runOps fuel (rc (buf.take nread.toNat))
            (s.emit [StreamEvent.readCallback (buf.take nread.toNat)])) ∧
        (∀ fuel, fuelBound (Call.handleRead nread buf) s ≤ fuel →
          ∃ s', HandleRead fuel nread buf s = some s' ∧
            readsOf s' = readsOf s ++ [StreamEvent.readCallback (buf.take nread.toNat)]) ∧
        (rc (buf.take nread.toNat) = [] → ∀ fuel, 1 ≤ fuel →
          HandleRead fuel nread buf s =
            some (s.emit [StreamEvent.readCallback (buf.take nread.toNat)])))) ∧
    (nread ≤ 0 → ∀ fuel,
      HandleRead fuel nread buf s = some (Close s) ∧ readsOf (Close s) = readsOf s) := by
  refine ⟨fun hn => ⟨fun hr fuel => HandleRead_pos_none fuel nread buf s hn hr,
    fun rc hr => ⟨fun fuel => HandleRead_pos_some fuel nread buf s rc hn hr, ?_, ?_⟩⟩,
    fun hn fuel => ⟨HandleRead_nonpos fuel nread buf s hn, readsOf_Close s⟩⟩
  · intro fuel hf
    obtain ⟨s', h, _⟩ := exec_total fuel (Call.handleRead nread buf) s hf
    simp only [exec] at h
    refine ⟨s', h, ?_⟩
    rw [HandleRead_pos_some fuel nread buf s rc hn hr] at h
    rw [((inner_all fuel).2.2.2.2.1 _ _ _ h).2]
    simp [readsOf, UvTcpServerStream.emit, isRead]
  · intro hnil fuel hfuel
    obtain ⟨m, rfl⟩ : ∃ m, fuel = m + 1 := ⟨fuel - 1, by omega⟩
    rw [HandleRead_pos_some (m + 1) nread buf s rc hn hr, hnil, runOps_nil]

/-- Witness for C7: three bytes of a four-byte buffer are delivered. -/
theorem C7_handleRead_dispatch_witness :
    HandleRead 1 3 [1, 2, 3, 4] (Accept 1 (some (fun _ => [])) none)
      = some ((Accept 1 (some (fun _ => [])) none).emit [StreamEvent.readCallback [1, 2, 3]]) :=
  ((C7_handleRead_dispatch (Accept 1 (some (fun _ => [])) none) 3 [1, 2, 3, 4]).1
      (by decide)).2 (fun _ => []) rfl |>.2.2 rfl 1 (le_refl 1)

/-! ## C4: teardown exactly once -/

theorem Accept_TdInv (client : ConnId) (rc : Option (List Byte → List Op))
    (cc : Option (List Op)) : TdInv (Accept client rc cc) := by
  simp [TdInv, Accept, tdEvents]

theorem Accept_CbInv (client : ConnId) (rc : Option (List Byte → List Op))
    (body : List Op) : CbInv (Accept client rc (some body)) := by
  simp [CbInv, Accept, cbBegins]

/-- On a stream whose socket is released, close requests and drains change
nothing. -/
theorem exec_released (fuel : Nat) (call : Call) (s s' : UvTcpServerStream)
    (hcall : call = Call.close ∨ call = Call.closeClient ∨ call = Call.handlePendingWrites)
    (hc : s.m_client = none) (h : exec fuel call s = some s') : s' = s := by
  rcases hcall with rfl | rfl | rfl
  · simp only [exec, Close_of_none s hc, Option.some.injEq] at h; exact h.symm
  · simp only [exec] at h
    cases fuel with
    | zero => rw [(zero_fuel s).1] at h; cases h
    | succ n => rw [CloseClient_none n s hc] at h; cases h; rfl
  · simp only [exec] at h
    cases fuel with
    | zero => rw [(zero_fuel s).2.1] at h; cases h
    | succ n => rw [HandlePendingWrites_none n s hc] at h; cases h; rfl

theorem execAll_released (fuel : Nat) : ∀ (calls : List Call) (s s' : UvTcpServerStream),
    (∀ r ∈ calls, r = Call.close ∨ r = Call.closeClient ∨ r = Call.handlePendingWrites) →
    s.m_client = none → execAll fuel calls s = some s' → s' = s := by
  intro calls
  induction calls with
  | nil => intro s s' _ _ h; simp only [execAll, Option.some.injEq] at h; exact h.symm
  | cons call rest ih =>
    intro s s' hall hc h
    simp only [execAll] at h
    cases he : exec fuel call s with
    | none => rw [he] at h; cases h
    | some s1 =>
      rw [he] at h
      have h1 := exec_released fuel call s s1 (hall call (List.mem_cons_self _ _)) hc he
      subst h1
      exact ih s1 s' (fun r hr => hall r (List.mem_cons_of_mem _ hr)) hc h

/-- Close requests followed by a drain run a queued close closure. -/
theorem execAll_pending (fuel : Nat) : ∀ (reqs : List Call) (s s' : UvTcpServerStream),
    (∀ r ∈ reqs, r = Call.close ∨ r = Call.closeClient) → Pending s →
    execAll fuel (reqs ++ [Call.handlePendingWrites]) s = some s' → Closed s s' := by
  intro reqs
  induction reqs with
  | nil =>
    intro s s' _ hp h
    simp only [List.nil_append, execAll, exec] at h
    cases hh : HandlePendingWrites fuel s with
    | none => rw [hh] at h; cases h
    | some s1 =>
      rw [hh] at h
      simp only [Option.some.injEq] at h
      subst h
      exact (pending_all fuel).2.1 _ _ hh hp
  | cons r rest ih =>
    intro s s' hall hp h
    simp only [List.cons_append, execAll] at h
    cases he : exec fuel r s with
    | none => rw [he] at h; cases h
    | some s1 =>
      rw [he] at h
      have hrest : ∀ x ∈ rest, x = Call.close ∨ x = Call.closeClient :=
        fun x hx => hall x (List.mem_cons_of_mem _ hx)
      have hstep : StillPending s s1 ∨ Closed s s1 := by
        rcases hall r (List.mem_cons_self _ _) with rfl | rfl
        · simp only [exec, Option.some.injEq] at he; subst he
          exact Or.inl (pending_Close s hp)
        · simp only [exec] at he
          exact (pending_all fuel).1 _ _ he hp
      rcases hstep with h1 | h1
      · exact closed_of_flag (ih s1 s' hrest h1.1 h) h1.2
      · exact closed_then_safe h1 (execAll_safe fuel _ s1 s' h)

theorem seqCost_closeCalls (s : UvTcpServerStream) : ∀ (calls : List Call),
    (∀ r ∈ calls, r = Call.close ∨ r = Call.closeClient ∨ r = Call.handlePendingWrites) →
    seqCost s calls ≤ 5 * calls.length := by
  intro calls
  induction calls with
  | nil => intro _; simp [seqCost]
  | cons r rest ih =>
    intro hall
    have h1 := ih (fun x hx => hall x (List.mem_cons_of_mem _ hx))
    have h2 : callCost s r ≤ 5 := by
      rcases hall r (List.mem_cons_self _ _) with rfl | rfl | rfl <;> simp [callCost]
    have h3 : seqCost s (r :: rest) = callCost s r + seqCost s rest := rfl
    rw [h3, List.length_cons]
    omega

/-- C4: teardown happens exactly once.  `CloseClient` is called only by the
close closure and by the destructor, and the destructor cannot run before the
closure has cleared the wake handle, so every sequence of close requests on an
accepted stream starts with a `Close()`.  After that first `Close()`, for
every further `Close()` and `CloseClient()` before the drain (`reqs`), every
`Close()`, `CloseClient()` and drain after it (`later`, the destructor
included), and whatever calls of `Write`, `Close` and `CloseClient` the close
callback makes, the socket teardown sequence (clear, stop, close, release) has
been performed exactly once and the close callback has been entered exactly
once. -/
theorem C4_teardown_once (client : ConnId) (rc : Option (List Byte → List Op))
    (body : List Op) (reqs later : List Call) (fuel : Nat)
    (hreq : ∀ r ∈ reqs, r = Call.close ∨ r = Call.closeClient)
    (hlater : ∀ r ∈ later,
      r = Call.close ∨ r = Call.closeClient ∨ r = Call.handlePendingWrites)
    (hf : opsWeight body + 5 * (reqs.length + later.length + 2) + 4 ≤ fuel) :
    ∃ s', execAll fuel (Call.close :: reqs ++ [Call.handlePendingWrites] ++ later)
        (Accept client rc (some body)) = some s' ∧
      tdEvents s' = teardownSeq ∧ s'.m_client = none ∧ cbBegins s' = 1 ∧
      s'.m_closeCallback = none := by
  have hpot : potential (Accept client rc (some body)) = opsWeight body := by
    simp [potential, Accept, queueWeight]
  have hall : ∀ r ∈ Call.close :: reqs ++ [Call.handlePendingWrites] ++ later,
      r = Call.close ∨ r = Call.closeClient ∨ r = Call.handlePendingWrites := by
    intro r hr
    simp only [List.cons_append, List.mem_cons, List.mem_append, List.mem_singleton,
      List.not_mem_nil, or_false] at hr
    rcases hr with h | (h | h) | h
    · exact Or.inl h
    · rcases hreq r h with h | h
      · exact Or.inl h
      · exact Or.inr (Or.inl h)
    · exact Or.inr (Or.inr h)
    · exact hlater r h
  have hcost := seqCost_closeCalls (Accept client rc (some body)) _ hall
  have hlen : (Call.close :: reqs ++ [Call.handlePendingWrites] ++ later).length
      = reqs.length + later.length + 2 := by
    simp only [List.cons_append, List.length_cons, List.length_append, List.length_nil]
    omega
  obtain ⟨s', hrun, _⟩ := execAll_total fuel
    (Call.close :: reqs ++ [Call.handlePendingWrites] ++ later)
    (Accept client rc (some body)) (by rw [hlen] at hcost; omega)
  have hsafe := execAll_safe fuel _ _ _ hrun
  have htd := hsafe.td_inv (Accept_TdInv client rc (some body))
  have hcb := hsafe.cb_inv (Accept_CbInv client rc body)
  refine ⟨s', hrun, ?_⟩
  have hshape : Call.close :: reqs ++ [Call.handlePendingWrites] ++ later
      = Call.close :: ((reqs ++ [Call.handlePendingWrites]) ++ later) := by
    simp
  rw [hshape] at hrun
  simp only [execAll] at hrun
  have hfirst : exec fuel Call.close (Accept client rc (some body))
      = some (Close (Accept client rc (some body))) := rfl
  rw [hfirst] at hrun
  simp only at hrun
  rw [execAll_append] at hrun
  obtain ⟨s1, hdrain, hrest⟩ := Option.bind_eq_some.mp hrun
  have hp : Pending (Close (Accept client rc (some body))) :=
    ⟨⟨client, rfl⟩, by simp [Close, Accept]⟩
  have hclosed := execAll_pending fuel reqs _ s1 hreq hp hdrain
  have hnone1 : s1.m_client = none := hclosed.2.2 rfl
  have heq := execAll_released fuel later s1 s' hlater hnone1 hrest
  subst heq
  refine ⟨?_, hnone1, ?_, hclosed.2.1⟩
  · unfold TdInv at htd; rw [htd, hnone1]; rfl
  · unfold CbInv at hcb; rw [hcb, hclosed.2.1]; rfl

/-- Witness for C4: `Close()` three times before the drain, `CloseClient()`
from the destructor after it, with a close callback that calls back into
`Close()` and `CloseClient()`. -/
theorem C4_teardown_once_witness :
    ∃ s', execAll 50 (Call.close :: [Call.close, Call.close] ++ [Call.handlePendingWrites] ++
          [Call.closeClient])
        (Accept 1 none (some [Op.close, Op.closeClient])) = some s' ∧
      tdEvents s' = teardownSeq ∧ s'.m_client = none ∧ cbBegins s' = 1 := by
  obtain ⟨s', h1, h2, h3, h4, _⟩ := C4_teardown_once 1 none [Op.close, Op.closeClient]
    [Call.close, Call.close] [Call.closeClient] 50 (by simp) (by simp) (by decide)
  exact ⟨s', h1, h2, h3, h4⟩

/-! ## C6: order of the close sequence -/

/-- C6 (failing input): with two `Close()` requests queued before the drain,
the second close closure is drained from inside the `CloseClient` of the
first: the close callback is entered and left, and the removal requested,
before the wake handle is cleared and before the socket is stopped, closed and
released. -/
theorem C6_second_close_runs_callback_before_teardown :
    (execAll 8 [Call.close, Call.close, Call.handlePendingWrites]
        (Accept 1 none (some []))).map (fun s => s.events)
      = some [StreamEvent.wakeSend, StreamEvent.wakeSend,
          StreamEvent.closeCallbackBegin, StreamEvent.closeCallbackEnd,
          StreamEvent.removeStream,
          StreamEvent.wakeClear, StreamEvent.wakeClose, StreamEvent.sockClear,
          StreamEvent.sockStop, StreamEvent.sockClose, StreamEvent.sockRelease,
          StreamEvent.removeStream] := by
  decide

/-! ## C9: lifecycle -/

theorem lifecycle_rank_le (s : UvTcpServerStream) : (lifecycle s).rank ≤ 2 := by
  unfold lifecycle
  cases s.m_client with
  | none => simp [Lifecycle.rank]
  | some c => cases s.m_closingClient <;> simp [Lifecycle.rank]

theorem lifecycle_of_none (s : UvTcpServerStream) (h : s.m_client = none) :
    lifecycle s = Lifecycle.closed := by
  unfold lifecycle; rw [h]

theorem safe_rank_le {s s' : UvTcpServerStream} (h : Safe s s') :
    (lifecycle s).rank ≤ (lifecycle s').rank := by
  rcases h.client_mono with hc | hc
  · rw [lifecycle_of_none s' hc]; exact lifecycle_rank_le s
  · unfold lifecycle
    rw [hc]
    cases hcl : s.m_client with
    | none => exact le_refl _
    | some c =>
      cases hf : s.m_closingClient with
      | false => simp [Lifecycle.rank]
      | true => rw [h.closing_mono hf]

/-- C9: every entry point of a stream (`Write`, `ScheduleCallback`, `Close`,
`HandleRead`, `HandlePendingWrites`, `CloseClient`, `GetPeerAddress`) returns,
and leaves the lifecycle state where it is or moves it forward along Active,
Closing, Closed; the teardown flag is never reset, a released socket is never
held again, and `Close()` on a stream without socket changes nothing. -/
theorem C9_lifecycle_monotone (call : Call) (s : UvTcpServerStream) :
    (∀ fuel, fuelBound call s ≤ fuel → ∃ s', exec fuel call s = some s') ∧
    (∀ fuel s', exec fuel call s = some s' →
      (lifecycle s).rank ≤ (lifecycle s').rank ∧
      (s.m_closingClient = true → s'.m_closingClient = true) ∧
      (s.m_client = none → s'.m_client = none ∧ lifecycle s' = Lifecycle.closed)) ∧
    (s.m_client = none → Close s = s) := by
  refine ⟨fun fuel hf => ?_, fun fuel s' h => ?_, Close_of_none s⟩
  · obtain ⟨s', h, _⟩ := exec_total fuel call s hf
    exact ⟨s', h⟩
  · have hs := exec_safe fuel call s s' h
    refine ⟨safe_rank_le hs, hs.closing_mono, fun hc => ?_⟩
    have : s'.m_client = none := by
      rcases hs.client_mono with h1 | h1
      · exact h1
      · rw [h1]; exact hc
    exact ⟨this, lifecycle_of_none s' this⟩

/-- Witness for C9: `CloseClient` takes an accepted stream from Active to
Closed, and a later `Close()` leaves it there. -/
theorem C9_lifecycle_monotone_witness :
    (lifecycle (Accept 1 none none)).rank = 0 ∧
    (∃ s', exec 3 Call.closeClient (Accept 1 none none) = some s' ∧
      (lifecycle s').rank = 2 ∧ Close s' = s') := by
  obtain ⟨s', h⟩ := (C9_lifecycle_monotone Call.closeClient (Accept 1 none none)).1 3
    (by decide)
  refine ⟨rfl, s', h, ?_, ?_⟩
  · have h3 : CloseClient 3 (Accept 1 none none)
        = some (finishTeardown true (beginTeardown (Accept 1 none none))) := rfl
    simp only [exec, h3, Option.some.injEq] at h
    subst h; rfl
  · have h3 : CloseClient 3 (Accept 1 none none)
        = some (finishTeardown true (beginTeardown (Accept 1 none none))) := rfl
    simp only [exec, h3, Option.some.injEq] at h
    subst h; rfl

/-! ## C10: reads while a close is queued -/

/-- C10 (counterexample): after `Close()` has queued its closure on a live
stream and before the drain, `HandleRead` with three bytes still calls the
read callback with them. -/
theorem C10_counterexample_read_while_close_queued :
    (HandleRead 1 3 [1, 2, 3] (Close (Accept 1 (some (fun _ => [])) none))).map
        (fun s => (s.m_pendingRequests, s.events))
      = some ([Task.close], [StreamEvent.wakeSend, StreamEvent.readCallback [1, 2, 3]]) := by
  decide

/-- C10 (amended): once the close closure queued by `Close()` on a live stream
has been run by the drain, the read callback is cleared, and in every state
reached from there `HandleRead` with `nread > 0` calls no read callback and
changes nothing, whatever the buffer. -/
theorem C10_no_reads_after_close_ran (s : UvTcpServerStream) (c : ConnId) (fuel : Nat)
    (hc : s.m_client = some c) (hw : s.m_writeCallback = true)
    (hf : potential s + 7 ≤ fuel) :
    ∃ s', HandlePendingWrites fuel (Close s) = some s' ∧
      s'.m_readCallback = none ∧
      ∀ (calls : List Call) (fuel2 : Nat) (s2 : UvTcpServerStream),
        execAll fuel2 calls s' = some s2 →
        ∀ (fuel3 : Nat) (nread : Int) (buf : List Byte), 0 < nread →
          HandleRead fuel3 nread buf s2 = some s2 := by
  have hpc := potential_Close s
  obtain ⟨s', h, _⟩ := (fuel_all fuel).2.1 (Close s) (by omega)
  have hp : Pending (Close s) := by
    rw [Close_of_live s c hc hw]
    exact ⟨⟨c, hc⟩, by simp⟩
  have hclosed := (pending_all fuel).2.1 _ _ h hp
  refine ⟨s', h, hclosed.1, fun calls fuel2 s2 hrun fuel3 nread buf hn => ?_⟩
  have hs := execAll_safe fuel2 calls s' s2 hrun
  have hnone : s2.m_readCallback = none := by
    rcases hs.read_mono with h1 | h1
    · exact h1
    · rw [h1]; exact hclosed.1
  exact HandleRead_pos_none fuel3 nread buf s2 hn hnone

/-- Witness for C10: after `Close()` and the drain, a read of three bytes is
not delivered. -/
theorem C10_no_reads_after_close_ran_witness :
    ∃ s', HandlePendingWrites 7 (Close (Accept 1 (some (fun _ => [])) none)) = some s' ∧
      HandleRead 1 3 [1, 2, 3] s' = some s' := by
  obtain ⟨s', h1, _, h3⟩ := C10_no_reads_after_close_ran
    (Accept 1 (some (fun _ => [])) none) 1 7 rfl rfl (by decide)
  exact ⟨s', h1, h3 [] 0 s' rfl 1 3 [1, 2, 3] (by decide)⟩

end UvTcpServerStream

end UvTcp
